import Mathlib

/-!
Verification development for the LLM story-output normalization-and-validation
pipeline (`validateLLMStoryOutput` and the field-mapping transform layer).

The TypeScript source is shallowly embedded: JavaScript values are the
inductive `JVal`, records are insertion-ordered association lists, and every
operation that can raise a `TypeError` at runtime (reading a property of
`null`/`undefined`, assigning a property to a primitive in strict mode,
calling `.map` on a non-array) is modelled in `Except JSError`.

Documented modelling restrictions (none is observable by the properties
proved below):
* Numbers are exact rationals; IEEE-754 rounding and `NaN` are not modelled
  (JSON text has no `NaN`, and no modelled comparison distinguishes float
  formatting from the rational rendering used here).
* JavaScript enumerates integer-like object keys first; here object keys
  always enumerate in insertion order.  No modelled document uses
  integer-like record keys.
* `String.prototype` / `Array.prototype` members other than array index
  reads are not modelled; the embedded code paths never read them.
-/

set_option maxHeartbeats 1000000

/-- A JavaScript value, as used by the pipeline: `undefined`, `null`,
booleans, (exact-rational) numbers, strings, arrays, and objects whose
fields are kept in insertion order. -/
inductive JVal where
  | undef
  | null
  | bool (b : Bool)
  | num (q : Rat)
  | str (s : String)
  | arr (elems : List JVal)
  | obj (fields : List (String × JVal))

namespace JVal

mutual

/-- Structural boolean equality on `JVal` (used to build `DecidableEq`,
which `deriving` cannot produce for this nested inductive). -/
def beq : JVal → JVal → Bool
  | .undef, .undef => true
  | .null, .null => true
  | .bool a, .bool b => a == b
  | .num a, .num b => a == b
  | .str a, .str b => a == b
  | .arr a, .arr b => beqElems a b
  | .obj a, .obj b => beqFields a b
  | _, _ => false

/-- Pointwise `beq` on element lists. -/
def beqElems : List JVal → List JVal → Bool
  | [], [] => true
  | a :: as, b :: bs => beq a b && beqElems as bs
  | _, _ => false

/-- Pointwise `beq` on field lists, comparing keys and values. -/
def beqFields : List (String × JVal) → List (String × JVal) → Bool
  | [], [] => true
  | (k, v) :: as, (l, w) :: bs => k == l && beq v w && beqFields as bs
  | _, _ => false

end

mutual

/-- `beq` is sound for propositional equality. -/
theorem eq_of_beq : ∀ {a b : JVal}, beq a b = true → a = b
  | .undef, .undef, _ => rfl
  | .null, .null, _ => rfl
  | .bool _, .bool _, h => by simpa [beq] using h
  | .num _, .num _, h => by simpa [beq] using h
  | .str _, .str _, h => by simpa [beq] using h
  | .arr a, .arr b, h => by rw [eqElems_of_beq (a := a) (b := b) (by simpa [beq] using h)]
  | .obj a, .obj b, h => by rw [eqFields_of_beq (a := a) (b := b) (by simpa [beq] using h)]
  | .undef, .null, h => nomatch h
  | .undef, .bool _, h => nomatch h
  | .undef, .num _, h => nomatch h
  | .undef, .str _, h => nomatch h
  | .undef, .arr _, h => nomatch h
  | .undef, .obj _, h => nomatch h
  | .null, .undef, h => nomatch h
  | .null, .bool _, h => nomatch h
  | .null, .num _, h => nomatch h
  | .null, .str _, h => nomatch h
  | .null, .arr _, h => nomatch h
  | .null, .obj _, h => nomatch h
  | .bool _, .undef, h => nomatch h
  | .bool _, .null, h => nomatch h
  | .bool _, .num _, h => nomatch h
  | .bool _, .str _, h => nomatch h
  | .bool _, .arr _, h => nomatch h
  | .bool _, .obj _, h => nomatch h
  | .num _, .undef, h => nomatch h
  | .num _, .null, h => nomatch h
  | .num _, .bool _, h => nomatch h
  | .num _, .str _, h => nomatch h
  | .num _, .arr _, h => nomatch h
  | .num _, .obj _, h => nomatch h
  | .str _, .undef, h => nomatch h
  | .str _, .null, h => nomatch h
  | .str _, .bool _, h => nomatch h
  | .str _, .num _, h => nomatch h
  | .str _, .arr _, h => nomatch h
  | .str _, .obj _, h => nomatch h
  | .arr _, .undef, h => nomatch h
  | .arr _, .null, h => nomatch h
  | .arr _, .bool _, h => nomatch h
  | .arr _, .num _, h => nomatch h
  | .arr _, .str _, h => nomatch h
  | .arr _, .obj _, h => nomatch h
  | .obj _, .undef, h => nomatch h
  | .obj _, .null, h => nomatch h
  | .obj _, .bool _, h => nomatch h
  | .obj _, .num _, h => nomatch h
  | .obj _, .str _, h => nomatch h
  | .obj _, .arr _, h => nomatch h

/-- `beqElems` is sound for propositional equality. -/
theorem eqElems_of_beq : ∀ {a b : List JVal}, beqElems a b = true → a = b
  | [], [], _ => rfl
  | x :: xs, y :: ys, h => by
      have h' := h
      simp only [beqElems, Bool.and_eq_true] at h'
      rw [eq_of_beq h'.1, eqElems_of_beq h'.2]
  | [], _ :: _, h => nomatch h
  | _ :: _, [], h => nomatch h

/-- `beqFields` is sound for propositional equality. -/
theorem eqFields_of_beq : ∀ {a b : List (String × JVal)}, beqFields a b = true → a = b
  | [], [], _ => rfl
  | (k, v) :: xs, (l, w) :: ys, h => by
      have h' := h
      simp only [beqFields, Bool.and_eq_true] at h'
      rw [eq_of_beq h'.1.2, eqFields_of_beq h'.2, beq_iff_eq.mp h'.1.1]
  | [], _ :: _, h => nomatch h
  | _ :: _, [], h => nomatch h

end

mutual

/-- `beq` is reflexive. -/
theorem beq_self : ∀ a : JVal, beq a a = true
  | .undef => rfl
  | .null => rfl
  | .bool _ => by simp [beq]
  | .num _ => by simp [beq]
  | .str _ => by simp [beq]
  | .arr a => by simpa [beq] using beqElems_self a
  | .obj a => by simpa [beq] using beqFields_self a

/-- `beqElems` is reflexive. -/
theorem beqElems_self : ∀ a : List JVal, beqElems a a = true
  | [] => rfl
  | x :: xs => by simp [beqElems, beq_self x, beqElems_self xs]

/-- `beqFields` is reflexive. -/
theorem beqFields_self : ∀ a : List (String × JVal), beqFields a a = true
  | [] => rfl
  | (k, v) :: xs => by simp [beqFields, beq_self v, beqFields_self xs]

end

instance : DecidableEq JVal := fun a b =>
  if h : beq a b = true then .isTrue (eq_of_beq h)
  else .isFalse (fun he => h (he ▸ beq_self a))

end JVal

/-- JavaScript truthiness: `undefined`, `null`, `false`, `0`, and `""` are
falsy; every other value (including empty arrays and empty objects) is
truthy. -/
def truthy : JVal → Bool
  | .undef => false
  | .null => false
  | .bool b => b
  | .num q => decide (q ≠ 0)
  | .str s => decide (s ≠ "")
  | .arr _ => true
  | .obj _ => true

/-- JavaScript `a || b`: the first operand when truthy, otherwise the
second. -/
def jor (a b : JVal) : JVal := if truthy a then a else b

/-- JavaScript `a ?? b` (nullish coalescing): the first operand unless it is
`null` or `undefined`. -/
def jnullish (a b : JVal) : JVal :=
  match a with
  | .undef => b
  | .null => b
  | _ => a

/-- First value stored under `key` in a field list (`none` when the key is
absent; JavaScript objects in the embedded code paths never hold duplicate
keys, so first-match is exact). -/
def lookupProp : List (String × JVal) → String → Option JVal
  | [], _ => none
  | (k, v) :: rest, key => if k = key then some v else lookupProp rest key

/-- Property read on a field list: `undefined` when the key is absent. -/
def getProp (fields : List (String × JVal)) (key : String) : JVal :=
  (lookupProp fields key).getD (.undef)

/-- Property write on a field list, with JavaScript object semantics: an
existing key keeps its position and gets the new value; a new key is
appended. -/
def setProp : List (String × JVal) → String → JVal → List (String × JVal)
  | [], key, v => [(key, v)]
  | (k, w) :: rest, key, v =>
      if k = key then (k, v) :: rest else (k, w) :: setProp rest key v

/-- A runtime error raised by the embedded JavaScript. -/
inductive JSError where
  | typeError (message : String)
deriving DecidableEq

/-- Decimal index of an all-digit key (structurally recursive stand-in for
`String.toNat?`, which is not kernel-reducible). -/
def strToIndex (s : String) : Option Nat :=
  if s.data ≠ [] ∧ s.data.all (fun c => c.isDigit) then
    some (s.data.foldl (fun a c => a * 10 + (c.toNat - 48)) 0)
  else none

/-- Array property read for a string key: numeric index keys return the
element, anything else is `undefined`.  (The embedded code only ever reads
non-numeric named fields from arrays, which are `undefined` both here and in
JavaScript.) -/
def arrIndexGet (elems : List JVal) (key : String) : JVal :=
  match strToIndex key with
  | some i => elems.getD i .undef
  | none => (.undef)

/-- JavaScript property read `v[key]`: throws a `TypeError` on `null` and
`undefined`, yields `undefined` on other primitives (no prototype members
are reached by the embedded code), and looks up the key on objects and
arrays. -/
def jget : JVal → String → Except JSError JVal
  | .undef, key => .error (.typeError ("Cannot read properties of undefined: " ++ key))
  | .null, key => .error (.typeError ("Cannot read properties of null: " ++ key))
  | .obj fields, key => .ok (getProp fields key)
  | .arr elems, key => .ok (arrIndexGet elems key)
  | _, _ => .ok (.undef)

/-- JavaScript optional-chained read `v?.[key]`: `undefined` instead of a
`TypeError` on `null`/`undefined`. -/
def joptGet (v : JVal) (key : String) : JVal :=
  match v with
  | .undef => .undef
  | .null => .undef
  | .obj fields => getProp fields key
  | .arr elems => arrIndexGet elems key
  | _ => (.undef)

/-- JavaScript property write `v[key] = x` in strict mode (the source is an
ES module): succeeds on objects, throws a `TypeError` on primitives and
`null`/`undefined`.  Writes onto arrays never occur on the embedded code
paths, so they are folded into the error case. -/
def jset : JVal → String → JVal → Except JSError JVal
  | .obj fields, key, v => .ok (.obj (setProp fields key v))
  | _, key, _ => .error (.typeError ("Cannot assign to property in strict mode: " ++ key))

/-- `Object.entries`-style enumeration used by `transformFields`: an
object's own fields in insertion order; an array's elements under their
stringified indices. -/
def jEntries : JVal → List (String × JVal)
  | .obj fields => fields
  | .arr elems => (elems.enum).map (fun p => (toString p.1, p.2))
  | _ => []

mutual

/-- JavaScript `String(v)` coercion, for the values the pipeline coerces
(`storyType`, `conversationType`, and template-literal interpolation).
Number rendering is the exact rational (see the module comment: no modelled
comparison distinguishes it from float formatting). -/
def jToString : JVal → String
  | .undef => "undefined"
  | .null => "null"
  | .bool b => if b then "true" else "false"
  | .num q => if q.den = 1 then toString q.num else toString q.num ++ "/" ++ toString q.den
  | .str s => s
  | .arr elems => String.intercalate "," (arrElemStrings elems)
  | .obj _ => "[object Object]"

/-- Array element rendering for `Array.prototype.toString`: `null` and
`undefined` render empty, everything else via `jToString`. -/
def arrElemStrings : List JVal → List String
  | [] => []
  | .undef :: rest => "" :: arrElemStrings rest
  | .null :: rest => "" :: arrElemStrings rest
  | v :: rest => jToString v :: arrElemStrings rest

end

/-- ASCII lower-casing of one character (the `A`-`Z` range). -/
def lowerChar (c : Char) : Char :=
  if 'A' ≤ c ∧ c ≤ 'Z' then Char.ofNat (c.toNat + 32) else c

/-- Model of `String.prototype.toLowerCase`.  The pipeline only compares
lower-cased values against ASCII keywords (`male`, `dm`, `group_chat`,
`story`, ...), on which this agrees with the JavaScript builtin; it is
structurally recursive so proofs can evaluate it. -/
def lowerString (s : String) : String := String.mk (s.data.map lowerChar)

/-! ### A model of `JSON.parse`

`validateLLMStoryOutput` accepts text and parses it with the platform's
`JSON.parse`.  The builtin is modelled by a fuel-indexed recursive-descent
parser over the RFC 8259 grammar (objects, arrays, strings with escapes,
numbers with fraction and exponent, literals).  Lone-surrogate `\u` escapes
are rejected (Lean characters are scalar values); no claim depends on the
exact accepted set of strings, only on the parse-succeeds / parse-fails
dichotomy. -/

/-- JSON insignificant whitespace. -/
def jsonWs (c : Char) : Bool := c = ' ' || c = '\t' || c = '\n' || c = '\r'

/-- Drop leading JSON whitespace. -/
def jsonSkipWs (cs : List Char) : List Char := cs.dropWhile jsonWs

/-- Split off a leading run of decimal digits. -/
def jsonDigits (cs : List Char) : List Char × List Char :=
  cs.span (fun c => c.isDigit)

/-- Value of a digit run. -/
def jsonNatOf (ds : List Char) : Nat :=
  ds.foldl (fun acc c => acc * 10 + (c.toNat - '0'.toNat)) 0

/-- Value of a hex digit, if any. -/
def jsonHexDigit (c : Char) : Option Nat :=
  if '0' ≤ c ∧ c ≤ '9' then some (c.toNat - '0'.toNat)
  else if 'a' ≤ c ∧ c ≤ 'f' then some (c.toNat - 'a'.toNat + 10)
  else if 'A' ≤ c ∧ c ≤ 'F' then some (c.toNat - 'A'.toNat + 10)
  else none

/-- Resolve a single-character escape. -/
def jsonEscape (c : Char) : Option Char :=
  match c with
  | '"' => some '"'
  | '\\' => some '\\'
  | '/' => some '/'
  | 'b' => some (Char.ofNat 8)
  | 'f' => some (Char.ofNat 12)
  | 'n' => some '\n'
  | 'r' => some '\r'
  | 't' => some '\t'
  | _ => none

/-- Parse the body of a JSON string (after the opening quote), fuel-indexed. -/
def jsonStringBody : Nat → List Char → List Char → Option (String × List Char)
  | 0, _, _ => none
  | _ + 1, acc, '"' :: rest => some (String.mk acc.reverse, rest)
  | fuel + 1, acc, '\\' :: 'u' :: a :: b :: c :: d :: rest => do
      let va ← jsonHexDigit a
      let vb ← jsonHexDigit b
      let vc ← jsonHexDigit c
      let vd ← jsonHexDigit d
      let n := ((va * 16 + vb) * 16 + vc) * 16 + vd
      if n < 0xd800 ∨ 0xdfff < n then
        jsonStringBody fuel (Char.ofNat n :: acc) rest
      else
        none
  | fuel + 1, acc, '\\' :: e :: rest => do
      let ch ← jsonEscape e
      jsonStringBody fuel (ch :: acc) rest
  | fuel + 1, acc, c :: rest =>
      if c.toNat < 32 then none else jsonStringBody fuel (c :: acc) rest
  | _ + 1, _, [] => none

/-- Parse a JSON number (integer part with no leading zeros, optional
fraction, optional exponent) into an exact rational. -/
def jsonNumber (cs : List Char) : Option (Rat × List Char) :=
  let (neg, cs1) := match cs with
    | '-' :: rest => (true, rest)
    | _ => (false, cs)
  let (intDigits, cs2) := jsonDigits cs1
  match intDigits with
  | [] => none
  | '0' :: _ :: _ => none
  | _ =>
    let (fracDigits, cs3) := match cs2 with
      | '.' :: rest => jsonDigits rest
      | _ => ([], cs2)
    if cs2 ≠ cs3 ∧ fracDigits = [] then none
    else
      let expPart : Option (Int × List Char) := match cs3 with
        | 'e' :: rest | 'E' :: rest =>
          let (sign, rest1) : Int × List Char := match rest with
            | '+' :: r => (1, r)
            | '-' :: r => (-1, r)
            | _ => (1, rest)
          let (expDigits, rest2) := jsonDigits rest1
          if expDigits = [] then none else some (sign * (jsonNatOf expDigits : Int), rest2)
        | _ => some (0, cs3)
      match expPart with
      | none => none
      | some (e, cs4) =>
        let mantissa : Int := (if neg then -1 else 1) * (jsonNatOf (intDigits ++ fracDigits) : Int)
        let base : Rat := (mantissa : Rat) / ((10 : Rat) ^ fracDigits.length)
        some (base * (10 : Rat) ^ e, cs4)

mutual

/-- Parse one JSON value (leading whitespace allowed), fuel-indexed. -/
def jsonValue : Nat → List Char → Option (JVal × List Char)
  | 0, _ => none
  | fuel + 1, cs =>
    match jsonSkipWs cs with
    | 'n' :: 'u' :: 'l' :: 'l' :: rest => some (.null, rest)
    | 't' :: 'r' :: 'u' :: 'e' :: rest => some (.bool true, rest)
    | 'f' :: 'a' :: 'l' :: 's' :: 'e' :: rest => some (.bool false, rest)
    | '"' :: rest => do
        let (s, rest') ← jsonStringBody (rest.length + 1) [] rest
        some (.str s, rest')
    | '[' :: rest =>
        (match jsonSkipWs rest with
         | ']' :: rest' => some (.arr [], rest')
         | _ => do
             let (elems, rest') ← jsonElems fuel rest
             some (.arr elems, rest'))
    | '{' :: rest =>
        (match jsonSkipWs rest with
         | '}' :: rest' => some (.obj [], rest')
         | _ => do
             let (fields, rest') ← jsonMembers fuel rest
             some (.obj (fields.foldl (fun acc p => setProp acc p.1 p.2) []), rest'))
    | c :: rest =>
        if c = '-' ∨ c.isDigit then
          do
            let (q, rest') ← jsonNumber (c :: rest)
            some (.num q, rest')
        else none
    | [] => none

/-- Parse one or more comma-separated array elements up to `]`. -/
def jsonElems : Nat → List Char → Option (List JVal × List Char)
  | 0, _ => none
  | fuel + 1, cs => do
    let (v, rest) ← jsonValue fuel cs
    match jsonSkipWs rest with
    | ',' :: rest' => do
        let (vs, rest'') ← jsonElems fuel rest'
        some (v :: vs, rest'')
    | ']' :: rest' => some ([v], rest')
    | _ => none

/-- Parse one or more comma-separated object members up to `}`, in text
order with duplicates kept; the caller folds them through `setProp`, which
gives `JSON.parse`'s duplicate-key behaviour (later value wins at the
earlier position). -/
def jsonMembers : Nat → List Char → Option (List (String × JVal) × List Char)
  | 0, _ => none
  | fuel + 1, cs =>
    match jsonSkipWs cs with
    | '"' :: rest => do
        let (key, rest1) ← jsonStringBody (rest.length + 1) [] rest
        match jsonSkipWs rest1 with
        | ':' :: rest2 => do
            let (v, rest3) ← jsonValue fuel rest2
            match jsonSkipWs rest3 with
            | ',' :: rest4 => do
                let (fields, rest5) ← jsonMembers fuel rest4
                some ((key, v) :: fields, rest5)
            | '}' :: rest4 => some ([(key, v)], rest4)
            | _ => none
        | _ => none
    | _ => none

end

/-- The model of `JSON.parse`: `some` of the parsed value, `none` when the
text is rejected (the source wraps the builtin's exception in a fatal
`Invalid JSON input` issue). -/
def jsonParse (text : String) : Option JVal :=
  match jsonValue (text.length + 1) text.toList with
  | some (v, rest) => if jsonSkipWs rest = [] then some v else none
  | none => none

/-! ### Alias tables (`src/schemas/llmOutput/transforms.ts`)

Each table is the literal object from the source, as an enumeration-ordered
list of `(alias, canonical)` pairs. -/

/-- Field mappings for the story entity. -/
def STORY_FIELD_MAPPINGS : List (String × String) :=
  [("story_id", "systemName"),
   ("system_name", "systemName"),
   ("systemName", "systemName"),
   ("title", "displayName"),
   ("display_name", "displayName"),
   ("displayName", "displayName"),
   ("story_type", "storyType"),
   ("storyType", "storyType")]

/-- Field mappings for the character entity. -/
def CHARACTER_FIELD_MAPPINGS : List (String × String) :=
  [("id", "systemName"),
   ("character_id", "systemName"),
   ("system_name", "systemName"),
   ("systemName", "systemName"),
   ("name", "displayName"),
   ("display_name", "displayName"),
   ("displayName", "displayName"),
   ("age_group", "ageGroup"),
   ("ageGroup", "ageGroup"),
   ("gender", "gender"),
   ("region", "region"),
   ("voicePersonality", "voiceConfig"),
   ("voice_personality", "voiceConfig"),
   ("voiceConfig", "voiceConfig"),
   ("voice_config", "voiceConfig"),
   ("isUser", "isUser"),
   ("is_user", "isUser"),
   ("role", "role"),
   ("backstory", "backgroundInfo"),
   ("background_info", "backgroundInfo"),
   ("backgroundInfo", "backgroundInfo"),
   ("typing_style", "speakingStyle"),
   ("typingStyle", "speakingStyle"),
   ("speakingStyle", "speakingStyle")]

/-- Field mappings for the chat/conversation entity. -/
def CHAT_FIELD_MAPPINGS : List (String × String) :=
  [("chat_id", "systemName"),
   ("id", "systemName"),
   ("system_name", "systemName"),
   ("systemName", "systemName"),
   ("display_title", "displayName"),
   ("title", "displayName"),
   ("name", "displayName"),
   ("displayName", "displayName"),
   ("type", "conversationType"),
   ("conversation_type", "conversationType"),
   ("conversationType", "conversationType"),
   ("participants", "participants"),
   ("description", "description"),
   ("learning_environment", "learningEnvironment"),
   ("learningEnvironment", "learningEnvironment")]

/-- Field mappings for the beat entity. -/
def BEAT_FIELD_MAPPINGS : List (String × String) :=
  [("beat_id", "systemName"),
   ("id", "systemName"),
   ("system_name", "systemName"),
   ("systemName", "systemName"),
   ("display_title", "displayName"),
   ("title", "displayName"),
   ("displayName", "displayName"),
   ("chat_id", "conversationId"),
   ("conversation_id", "conversationId"),
   ("conversationId", "conversationId"),
   ("room_id", "conversationId"),
   ("sequence_number", "sequencePosition"),
   ("sequencePosition", "sequencePosition"),
   ("index", "sequencePosition"),
   ("premade_messages", "openingMessages"),
   ("openingMessages", "openingMessages"),
   ("messages", "openingMessages"),
   ("content", "openingMessages"),
   ("response_suggestion", "responseSuggestions"),
   ("response_suggestions", "responseSuggestions"),
   ("responseSuggestion", "responseSuggestions"),
   ("responseSuggestions", "responseSuggestions"),
   ("problem_type", "problemType"),
   ("problemType", "problemType"),
   ("participants", "participants"),
   ("participantsIds", "participants"),
   ("prompt_context", "promptContext"),
   ("promptContext", "promptContext")]

/-- Field mappings for the premade message entity. -/
def PREMADE_MESSAGE_FIELD_MAPPINGS : List (String × String) :=
  [("sender_id", "sender"),
   ("sender", "sender"),
   ("message", "content"),
   ("content", "content"),
   ("language", "languages"),
   ("languages", "languages"),
   ("message_note", "messageNote"),
   ("messageNote", "messageNote"),
   ("delay_seconds", "delaySeconds"),
   ("delaySeconds", "delaySeconds"),
   ("sender_name", "senderDisplayName"),
   ("senderDisplayName", "senderDisplayName")]

/-- The entity kinds of `FIELD_MAPPINGS`. -/
inductive EntityType where
  | story
  | character
  | chat
  | beat
  | premadeMessage
deriving DecidableEq

/-- All field mappings grouped by entity type. -/
def FIELD_MAPPINGS : EntityType → List (String × String)
  | .story => STORY_FIELD_MAPPINGS
  | .character => CHARACTER_FIELD_MAPPINGS
  | .chat => CHAT_FIELD_MAPPINGS
  | .beat => BEAT_FIELD_MAPPINGS
  | .premadeMessage => PREMADE_MESSAGE_FIELD_MAPPINGS

/-! ### The field rewriter (`transformFields`) -/

/-- `mapping[key] || key`: the canonical name for an alias, the key itself
when unknown (an empty-string table value would be falsy and also fall back
to the key; the tables never contain one). -/
def targetKey (mapping : List (String × String)) (key : String) : String :=
  match mapping.lookup key with
  | some target => if target = "" then key else target
  | none => key

/-- One step of `transformFields`' loop over `Object.entries(obj)`:
`if (result[targetKey] === undefined || value !== undefined) result[targetKey] = value`. -/
def transformFieldsStep (mapping : List (String × String))
    (result : List (String × JVal)) (entry : String × JVal) : List (String × JVal) :=
  let tk := targetKey mapping entry.1
  if getProp result tk = .undef ∨ entry.2 ≠ .undef then setProp result tk entry.2
  else result

/-- `transformFields` from `transforms.ts`: rename an object's fields per
the mapping, unknown fields passing through; non-objects (the
`!obj || typeof obj !== 'object'` guard — which arrays pass, enumerating
their index keys) are returned unchanged. -/
def transformFields (mapping : List (String × String)) : JVal → JVal
  | .obj fields => .obj (fields.foldl (transformFieldsStep mapping) [])
  | .arr elems => .obj ((jEntries (.arr elems)).foldl (transformFieldsStep mapping) [])
  | v => v

/-- `transformEntity`: `transformFields` with the entity's table. -/
def transformEntity (entityType : EntityType) (o : JVal) : JVal :=
  transformFields (FIELD_MAPPINGS entityType) o

/-- `transformPremadeMessages`: flatten an array (kept in order) or an
id-keyed object (values in key insertion order, keys discarded) of raw
messages, applying `transformEntity` to each; falsy input and non-object
primitives yield the empty list. -/
def transformPremadeMessages (messages : JVal) : List JVal :=
  if truthy messages = false then []
  else
    match messages with
    | .arr elems => elems.map (transformEntity .premadeMessage)
    | .obj fields => fields.map (fun p => transformEntity .premadeMessage p.2)
    | _ => []

/-- String test used by the `filter` in `normalizeLanguages`. -/
def isJStr : JVal → Bool
  | .str _ => true
  | _ => false

/-- `normalizeLanguages`: array → its string elements; string → a singleton;
anything else → empty. -/
def normalizeLanguages : JVal → JVal
  | .arr elems => .arr (elems.filter isJStr)
  | .str s => .arr [.str s]
  | _ => .arr []

/-- `normalizeResponseSuggestions`: same coercion as `normalizeLanguages`
(a separate function in the source). -/
def normalizeResponseSuggestions : JVal → JVal
  | .arr elems => .arr (elems.filter isJStr)
  | .str s => .arr [.str s]
  | _ => .arr []

/-! ### Entity normalizers (`src/unnamed/part_002`, Transform Functions) -/

/-- `transformPremadeMessage`: alias-rewrite, then normalize `languages` only
when `transformed.languages !== undefined || raw.language !== undefined`
(sequential reads are equivalent to the source's short-circuit: the second
read throws exactly when the first does, since `transformFields` preserves
`null`/`undefined`). -/
def transformPremadeMessage (raw : JVal) : Except JSError JVal := do
  let transformed := transformEntity .premadeMessage raw
  let tLangs ← jget transformed "languages"
  let rLang ← jget raw "language"
  if tLangs ≠ .undef ∨ rLang ≠ .undef then
    jset transformed "languages" (normalizeLanguages (jnullish tLangs rLang))
  else
    pure transformed

/-- `transformCharacter`: alias-rewrite, default `isUser` to `false` unless
strictly boolean, lower-case `gender` into the enum on exact match only. -/
def transformCharacter (raw : JVal) : Except JSError JVal := do
  let t0 := transformEntity .character raw
  let isUserVal ← jget t0 "isUser"
  let t1 ← match isUserVal with
    | .bool _ => pure t0
    | _ => jset t0 "isUser" (.bool false)
  let genderVal ← jget t1 "gender"
  match genderVal with
  | .str s =>
      if truthy (.str s) then
        let normalizedGender := lowerString s
        if normalizedGender = "male" ∨ normalizedGender = "female" ∨
            normalizedGender = "neutral" then
          jset t1 "gender" (.str normalizedGender)
        else pure t1
      else pure t1
  | _ => pure t1

/-- `transformChat`: alias-rewrite, canonicalize `conversationType` through
its synonym map (an already-canonical `dm` is left untouched, which keeps
e.g. a raw `DM` unchanged), and force `participants` to an array. -/
def transformChat (raw : JVal) : Except JSError JVal := do
  let t0 := transformEntity .chat raw
  let ctVal ← jget t0 "conversationType"
  let t1 ←
    if truthy ctVal then
      let ty := lowerString (jToString ctVal)
      if ty = "individual" ∨ ty = "1:1" ∨ ty = "one-on-one" then
        jset t0 "conversationType" (.str "dm")
      else if ty = "group" ∨ ty = "group_chat" then
        jset t0 "conversationType" (.str "group")
      else if ty ≠ "dm" then
        jset t0 "conversationType" (.str "dm")
      else pure t0
    else jset t0 "conversationType" (.str "dm")
  let partsVal ← jget t1 "participants"
  match partsVal with
  | .arr _ => pure t1
  | _ => jset t1 "participants" (.arr [])

/-- `messages.map(transformPremadeMessage)`, stopping at the first thrown
`TypeError` as JavaScript would. -/
def mapMessages : List JVal → Except JSError (List JVal)
  | [] => .ok []
  | m :: rest => do
      let m' ← transformPremadeMessage m
      let rest' ← mapMessages rest
      pure (m' :: rest')

/-- `transformBeat`: alias-rewrite; pick the message container as
`raw.premade_messages || raw.openingMessages || raw.messages || raw.content || []`
(all four reads are on `raw`, so sequential evaluation matches the
short-circuit); flatten and normalize each message; normalize response
suggestions from `raw.response_suggestions || raw.response_suggestion ||
raw.responseSuggestions`; default `sequencePosition` to `0` and `isActive`
to `true` unless already the right primitive type. -/
def transformBeat (raw : JVal) : Except JSError JVal := do
  let t0 := transformEntity .beat raw
  let pm ← jget raw "premade_messages"
  let om ← jget raw "openingMessages"
  let ms ← jget raw "messages"
  let ct ← jget raw "content"
  let rawMessages := jor pm (jor om (jor ms (jor ct (.arr []))))
  let messages := transformPremadeMessages rawMessages
  let opening ← mapMessages messages
  let t1 ← jset t0 "openingMessages" (.arr opening)
  let rs1 ← jget raw "response_suggestions"
  let rs2 ← jget raw "response_suggestion"
  let rs3 ← jget raw "responseSuggestions"
  let t2 ← jset t1 "responseSuggestions" (normalizeResponseSuggestions (jor rs1 (jor rs2 rs3)))
  let spVal ← jget t2 "sequencePosition"
  let t3 ← match spVal with
    | .num _ => pure t2
    | _ => jset t2 "sequencePosition" (.num 0)
  let iaVal ← jget t3 "isActive"
  match iaVal with
  | .bool _ => pure t3
  | _ => jset t3 "isActive" (.bool true)

/-- `transformStory`: alias-rewrite; wrap a bare-string `description` into
`{summary}`; store `storyType` lower-cased when it matches `story`/`aula`
case-insensitively, otherwise leave the value as given. -/
def transformStory (raw : JVal) : Except JSError JVal := do
  let t0 := transformEntity .story raw
  let descVal ← jget t0 "description"
  let t1 ← match descVal with
    | .str s => jset t0 "description" (.obj [("summary", .str s)])
    | _ => pure t0
  let styVal ← jget t1 "storyType"
  if truthy styVal then
    let ty := lowerString (jToString styVal)
    if ty = "story" ∨ ty = "aula" then jset t1 "storyType" (.str ty)
    else pure t1
  else pure t1

/-! ### The validation orchestrator (`validateLLMStoryOutput`) -/

/-- A collected warning or error (`ValidationWarning` in the source). -/
structure VIssue where
  path : String
  message : String
  value : Option JVal
deriving DecidableEq

/-- The discriminated result (`ValidationResult` in the source); `data` is
kept as the untyped value the source casts, since the function never runs
the strict schemas. -/
structure VResult where
  success : Bool
  data : Option JVal
  warnings : List VIssue
  errors : List VIssue
deriving DecidableEq

/-- The story-section checks: missing `systemName` is the pipeline's only
ERROR; missing `displayName` is a WARNING and is defaulted to
`systemName || 'Untitled'`.  Returns `(errors, warnings, story)`. -/
def checkStory (story : JVal) : Except JSError (List VIssue × List VIssue × JVal) := do
  let sn ← jget story "systemName"
  let errs := if truthy sn then ([] : List VIssue)
    else [⟨"story.systemName", "Story is missing systemName (story_id)", none⟩]
  let dn ← jget story "displayName"
  if truthy dn then pure (errs, [], story)
  else do
    let sn' ← jget story "systemName"
    let story' ← jset story "displayName" (jor sn' (.str "Untitled"))
    pure (errs, [⟨"story.displayName", "Story is missing displayName (title)", none⟩], story')

/-- The per-character body of `rawCharacters.map`: synthesize
`character_<index>` with a WARNING when `systemName` is falsy, then default
a falsy `displayName` to the (possibly synthetic) `systemName`. -/
def processCharacter (c : JVal) (i : Nat) : Except JSError (List VIssue × JVal) := do
  let transformed ← transformCharacter c
  let sn ← jget transformed "systemName"
  let (ws, t1) ←
    if truthy sn then pure (([] : List VIssue), transformed)
    else do
      let t' ← jset transformed "systemName" (.str ("character_" ++ toString i))
      pure ([⟨"characters[" ++ toString i ++ "].systemName",
             "Character at index " ++ toString i ++ " missing systemName (id)", none⟩], t')
  let dn ← jget t1 "displayName"
  if truthy dn then pure (ws, t1)
  else do
    let sn' ← jget t1 "systemName"
    let t2 ← jset t1 "displayName" sn'
    pure (ws, t2)

/-- `rawCharacters.map((c, i) => ...)`, accumulating pushed warnings in
order. -/
def processCharacters : List JVal → Nat → Except JSError (List VIssue × List JVal)
  | [], _ => .ok ([], [])
  | c :: rest, i => do
      let (w, t) ← processCharacter c i
      let (ws, ts) ← processCharacters rest (i + 1)
      pure (w ++ ws, t :: ts)

/-- The per-chat body of `rawChats.map`: same missing-id policy with
synthetic `chat_<index>`. -/
def processChat (c : JVal) (i : Nat) : Except JSError (List VIssue × JVal) := do
  let transformed ← transformChat c
  let sn ← jget transformed "systemName"
  let (ws, t1) ←
    if truthy sn then pure (([] : List VIssue), transformed)
    else do
      let t' ← jset transformed "systemName" (.str ("chat_" ++ toString i))
      pure ([⟨"chats[" ++ toString i ++ "].systemName",
             "Chat at index " ++ toString i ++ " missing systemName (chat_id)", none⟩], t')
  let dn ← jget t1 "displayName"
  if truthy dn then pure (ws, t1)
  else do
    let sn' ← jget t1 "systemName"
    let t2 ← jset t1 "displayName" sn'
    pure (ws, t2)

/-- `rawChats.map((c, i) => ...)`. -/
def processChats : List JVal → Nat → Except JSError (List VIssue × List JVal)
  | [], _ => .ok ([], [])
  | c :: rest, i => do
      let (w, t) ← processChat c i
      let (ws, ts) ← processChats rest (i + 1)
      pure (w ++ ws, t :: ts)

/-- The `openingMessages.forEach((msg, j) => ...)` checks: a falsy `sender`
or `content` each push a WARNING carrying the message as `value`. -/
def checkMessages (beatIdx : Nat) : List JVal → Nat → Except JSError (List VIssue)
  | [], _ => .ok []
  | msg :: rest, j => do
      let s ← jget msg "sender"
      let w1 := if truthy s then ([] : List VIssue)
        else [⟨"beats[" ++ toString beatIdx ++ "].openingMessages[" ++ toString j ++ "].sender",
              "Message missing sender (sender_id)", some msg⟩]
      let c ← jget msg "content"
      let w2 := if truthy c then ([] : List VIssue)
        else [⟨"beats[" ++ toString beatIdx ++ "].openingMessages[" ++ toString j ++ "].content",
              "Message missing content (message)", some msg⟩]
      let ws ← checkMessages beatIdx rest (j + 1)
      pure (w1 ++ w2 ++ ws)

/-- The per-beat body of `rawBeats.map`: synthetic `beat_<index>` policy,
silent `displayName` default, WARNING for a falsy `conversationId` (its
message interpolates the current `systemName`), then the per-message
checks. -/
def processBeat (b : JVal) (i : Nat) : Except JSError (List VIssue × JVal) := do
  let transformed ← transformBeat b
  let sn ← jget transformed "systemName"
  let (w1, t1) ←
    if truthy sn then pure (([] : List VIssue), transformed)
    else do
      let t' ← jset transformed "systemName" (.str ("beat_" ++ toString i))
      pure ([⟨"beats[" ++ toString i ++ "].systemName",
             "Beat at index " ++ toString i ++ " missing systemName (beat_id)", none⟩], t')
  let dn ← jget t1 "displayName"
  let t2 ← if truthy dn then pure t1
    else do
      let sn' ← jget t1 "systemName"
      jset t1 "displayName" sn'
  let cid ← jget t2 "conversationId"
  let snNow ← jget t2 "systemName"
  let w2 := if truthy cid then ([] : List VIssue)
    else [⟨"beats[" ++ toString i ++ "].conversationId",
          "Beat " ++ jToString snNow ++ " missing conversationId (chat_id)", none⟩]
  let omVal ← jget t2 "openingMessages"
  let w3 ← match omVal with
    | .arr oms => checkMessages i oms 0
    | _ => .error (.typeError "openingMessages.forEach is not a function")
  pure (w1 ++ w2 ++ w3, t2)

/-- `rawBeats.map((b, i) => ...)`. -/
def processBeats : List JVal → Nat → Except JSError (List VIssue × List JVal)
  | [], _ => .ok ([], [])
  | b :: rest, i => do
      let (w, t) ← processBeat b i
      let (ws, ts) ← processBeats rest (i + 1)
      pure (w ++ ws, t :: ts)

/-- `.map` dispatch: a `TypeError` unless the collection is an array (the
source casts each resolved collection to an array and calls `.map`
directly — an id-keyed record here throws rather than being flattened). -/
def asArrayElems (v : JVal) (what : String) : Except JSError (List JVal) :=
  match v with
  | .arr elems => .ok elems
  | _ => .error (.typeError (what ++ ".map is not a function"))

/-- The body of the pipeline once the shape check has passed: story
resolution and checks, the three collection resolutions (first truthy `||`
candidate, then `.map`), and aggregation (`success` iff no errors, `data`
always present here). -/
def validateObject (input : JVal) : Except JSError VResult := do
      let storyRaw1 ← jget input "story"
      let storyRaw2 ← jget input "story_info"
      let rawStory := jor storyRaw1 (jor storyRaw2 (.obj []))
      let story0 ← transformStory rawStory
      let (errs, storyWarns, story) ← checkStory story0
      let cand1 ← jget input "characters"
      let cand2 ← jget input "cast"
      let entsVal ← jget input "entities"
      let rawCharacters := jor cand1 (jor cand2 (jor (joptGet entsVal "characters") (.arr [])))
      let charElems ← asArrayElems rawCharacters "rawCharacters"
      let (charWarns, characters) ← processCharacters charElems 0
      let ch1 ← jget input "chats"
      let ch2 ← jget input "new_chats"
      let ch3 ← jget input "conversations"
      let ch4 ← jget input "rooms"
      let rawChats := jor ch1 (jor ch2 (jor ch3 (jor ch4 (jor (joptGet entsVal "chats") (.arr [])))))
      let chatElems ← asArrayElems rawChats "rawChats"
      let (chatWarns, chats) ← processChats chatElems 0
      let b1 ← jget input "beats"
      let b2 ← jget input "all_beats"
      let rawBeats := jor b1 (jor b2 (.arr []))
      let beatElems ← asArrayElems rawBeats "rawBeats"
      let (beatWarns, beats) ← processBeats beatElems 0
      let output := JVal.obj [("story", story), ("characters", .arr characters),
                              ("chats", .arr chats), ("beats", .arr beats)]
      pure { success := errs.isEmpty, data := some output,
             warnings := storyWarns ++ charWarns ++ chatWarns ++ beatWarns,
             errors := errs }

/-- The pipeline after the parse step: the `!parsed || typeof parsed !==
'object'` shape check (arrays pass it), then the main body. -/
def validateParsed (parsed : JVal) : Except JSError VResult :=
  match parsed with
  | .obj _ | .arr _ => validateObject parsed
  | _ =>
      .ok { success := false, data := none, warnings := [],
            errors := [⟨"", "Input must be an object", none⟩] }

/-- `validateLLMStoryOutput`: parse string input as JSON (a reject is the
fatal `Invalid JSON input` result), then run the pipeline; non-string input
is used as already-parsed data. -/
def validateLLMStoryOutput (raw : JVal) : Except JSError VResult :=
  match raw with
  | .str text =>
      match jsonParse text with
      | some parsed => validateParsed parsed
      | none => .ok { success := false, data := none, warnings := [],
                      errors := [⟨"", "Invalid JSON input", none⟩] }
  | _ => validateParsed raw

/-! ### Association-list lemmas -/

/-- The keys of a field list, in order. -/
def keysOf (l : List (String × JVal)) : List String := l.map Prod.fst

theorem keysOf_nil : keysOf [] = [] := rfl

theorem keysOf_cons (p : String × JVal) (l : List (String × JVal)) :
    keysOf (p :: l) = p.1 :: keysOf l := rfl

theorem keysOf_append (l l' : List (String × JVal)) :
    keysOf (l ++ l') = keysOf l ++ keysOf l' := by
  simp [keysOf]

theorem lookupProp_eq_none_of_not_mem {l : List (String × JVal)} {k : String}
    (h : k ∉ keysOf l) : lookupProp l k = none := by
  induction l with
  | nil => rfl
  | cons p rest ih =>
      obtain ⟨pk, pv⟩ := p
      rw [keysOf_cons, List.mem_cons, not_or] at h
      rw [lookupProp, if_neg (fun he => h.1 he.symm), ih h.2]

theorem getProp_eq_undef_of_not_mem {l : List (String × JVal)} {k : String}
    (h : k ∉ keysOf l) : getProp l k = .undef := by
  simp [getProp, lookupProp_eq_none_of_not_mem h]

theorem mem_keysOf_of_lookupProp {l : List (String × JVal)} {k : String} {v : JVal}
    (h : lookupProp l k = some v) : k ∈ keysOf l := by
  by_contra hk
  rw [lookupProp_eq_none_of_not_mem hk] at h
  exact Option.noConfusion h

theorem getProp_eq_lookupProp_of_ne_undef {l : List (String × JVal)} {k : String}
    (h : getProp l k ≠ .undef) : lookupProp l k = some (getProp l k) := by
  cases hl : lookupProp l k with
  | none => exact absurd (by simp [getProp, hl]) h
  | some v => simp [getProp, hl]

theorem setProp_eq_append_of_not_mem {l : List (String × JVal)} {k : String} {v : JVal}
    (h : k ∉ keysOf l) : setProp l k v = l ++ [(k, v)] := by
  induction l with
  | nil => rfl
  | cons p rest ih =>
      obtain ⟨pk, pv⟩ := p
      rw [keysOf_cons, List.mem_cons, not_or] at h
      rw [setProp, if_neg (fun he => h.1 he.symm), ih h.2, List.cons_append]

theorem setProp_self {l : List (String × JVal)} {k : String} {v : JVal}
    (h : lookupProp l k = some v) : setProp l k v = l := by
  induction l with
  | nil => exact Option.noConfusion h
  | cons p rest ih =>
      obtain ⟨pk, pv⟩ := p
      by_cases he : pk = k
      · subst he
        rw [lookupProp, if_pos rfl, Option.some.injEq] at h
        rw [setProp, if_pos rfl, h]
      · rw [lookupProp, if_neg he] at h
        rw [setProp, if_neg he, ih h]

theorem lookupProp_setProp_self (l : List (String × JVal)) (k : String) (v : JVal) :
    lookupProp (setProp l k v) k = some v := by
  induction l with
  | nil => simp [setProp, lookupProp]
  | cons p rest ih =>
      obtain ⟨pk, pv⟩ := p
      by_cases he : pk = k
      · subst he; simp [setProp, lookupProp]
      · rw [setProp, if_neg he, lookupProp, if_neg he, ih]

theorem lookupProp_setProp_ne (l : List (String × JVal)) {k k' : String} (v : JVal)
    (h : k ≠ k') : lookupProp (setProp l k v) k' = lookupProp l k' := by
  induction l with
  | nil => simp [setProp, lookupProp, if_neg h]
  | cons p rest ih =>
      obtain ⟨pk, pv⟩ := p
      by_cases he : pk = k
      · subst he
        rw [setProp, if_pos rfl, lookupProp, lookupProp, if_neg h, if_neg h]
      · rw [setProp, if_neg he, lookupProp, lookupProp, ih]

theorem getProp_setProp_self (l : List (String × JVal)) (k : String) (v : JVal) :
    getProp (setProp l k v) k = v := by
  simp [getProp, lookupProp_setProp_self]

theorem getProp_setProp_ne (l : List (String × JVal)) {k k' : String} (v : JVal)
    (h : k ≠ k') : getProp (setProp l k v) k' = getProp l k' := by
  simp [getProp, lookupProp_setProp_ne _ _ h]

theorem keysOf_setProp_mem {l : List (String × JVal)} {k : String} (v : JVal)
    (h : k ∈ keysOf l) : keysOf (setProp l k v) = keysOf l := by
  induction l with
  | nil => simp [keysOf] at h
  | cons p rest ih =>
      obtain ⟨pk, pv⟩ := p
      by_cases he : pk = k
      · subst he
        rw [setProp, if_pos rfl, keysOf_cons, keysOf_cons]
      · rw [keysOf_cons, List.mem_cons] at h
        rcases h with h | h
        · exact absurd h.symm he
        · rw [setProp, if_neg he, keysOf_cons, keysOf_cons, ih h]

theorem keysOf_setProp_not_mem {l : List (String × JVal)} {k : String} (v : JVal)
    (h : k ∉ keysOf l) : keysOf (setProp l k v) = keysOf l ++ [k] := by
  rw [setProp_eq_append_of_not_mem h, keysOf_append, keysOf_cons, keysOf_nil]

theorem getProp_mem_of_ne_undef {l : List (String × JVal)} {k : String}
    (h : getProp l k ≠ .undef) : k ∈ keysOf l :=
  mem_keysOf_of_lookupProp (getProp_eq_lookupProp_of_ne_undef h)

/-! ### Field-rewriter lemmas -/

/-- Membership extraction for `List.lookup` on string tables. -/
theorem mem_of_lookup_eq_some {M : List (String × String)} {k t : String}
    (h : M.lookup k = some t) : (k, t) ∈ M := by
  induction M with
  | nil => exact Option.noConfusion h
  | cons p rest ih =>
      obtain ⟨pk, pv⟩ := p
      by_cases he : k = pk
      · subst he
        have hl : List.lookup k ((k, pv) :: rest) = some pv := by simp [List.lookup]
        rw [hl] at h
        cases h
        exact .head _
      · have hb : (k == pk) = false := by simpa using he
        have hl : List.lookup k ((pk, pv) :: rest) = List.lookup k rest := by
          simp [List.lookup, hb]
        rw [hl] at h
        exact .tail _ (ih h)

/-- A table is self-canonical when every canonical name it produces rewrites
to itself.  All five `FIELD_MAPPINGS` tables satisfy this (it is what makes
the pipeline idempotent). -/
def TableSelf (M : List (String × String)) : Prop :=
  ∀ p ∈ M, targetKey M p.2 = p.2

/-- Rewriting is idempotent on keys for a self-canonical table. -/
theorem targetKey_fix {M : List (String × String)} (hM : TableSelf M) (k : String) :
    targetKey M (targetKey M k) = targetKey M k := by
  cases h : M.lookup k with
  | none =>
      have hk : targetKey M k = k := by rw [targetKey, h]
      rw [hk]
      exact hk
  | some t =>
      by_cases ht : t = ""
      · subst ht
        have hk : targetKey M k = k := by rw [targetKey, h]; simp
        rw [hk]
        exact hk
      · have hk : targetKey M k = t := by rw [targetKey, h]; simp [ht]
        rw [hk]
        exact hM (k, t) (mem_of_lookup_eq_some h)

theorem tableSelf_story : TableSelf STORY_FIELD_MAPPINGS := by
  unfold TableSelf; decide

theorem tableSelf_character : TableSelf CHARACTER_FIELD_MAPPINGS := by
  unfold TableSelf; decide

theorem tableSelf_chat : TableSelf CHAT_FIELD_MAPPINGS := by
  unfold TableSelf; decide

theorem tableSelf_beat : TableSelf BEAT_FIELD_MAPPINGS := by
  unfold TableSelf; decide

theorem tableSelf_premadeMessage : TableSelf PREMADE_MESSAGE_FIELD_MAPPINGS := by
  unfold TableSelf; decide

/-- All five grouped tables are self-canonical. -/
theorem tableSelf_fieldMappings : ∀ e : EntityType, TableSelf (FIELD_MAPPINGS e)
  | .story => tableSelf_story
  | .character => tableSelf_character
  | .chat => tableSelf_chat
  | .beat => tableSelf_beat
  | .premadeMessage => tableSelf_premadeMessage

/-- A record is canonical for a table when its keys are distinct and each is
a fixed point of the rewrite (a canonical name or an unknown key). -/
def CanonKeys (M : List (String × String)) (l : List (String × JVal)) : Prop :=
  (keysOf l).Nodup ∧ ∀ k ∈ keysOf l, targetKey M k = k

theorem foldl_transformFieldsStep_id {M : List (String × String)} :
    ∀ (l acc : List (String × JVal)),
    (keysOf acc ++ keysOf l).Nodup → (∀ k ∈ keysOf l, targetKey M k = k) →
    l.foldl (transformFieldsStep M) acc = acc ++ l := by
  intro l
  induction l with
  | nil => intro acc _ _; simp
  | cons p rest ih =>
      intro acc hnd hk
      obtain ⟨pk, pv⟩ := p
      have hpk : targetKey M pk = pk := hk pk (by simp [keysOf])
      have hdisj := (List.nodup_append.mp hnd).2.2
      have hnotacc : pk ∉ keysOf acc := fun hmem =>
        (hdisj hmem) (by simp [keysOf])
      have hstep : transformFieldsStep M acc (pk, pv) = acc ++ [(pk, pv)] := by
        unfold transformFieldsStep
        simp only [hpk]
        rw [if_pos (Or.inl (getProp_eq_undef_of_not_mem hnotacc)),
            setProp_eq_append_of_not_mem hnotacc]
      rw [List.foldl_cons, hstep, ih (acc ++ [(pk, pv)]), List.append_assoc]
      · rfl
      · rw [keysOf_append, keysOf_cons, keysOf_nil, List.append_assoc]
        simpa [keysOf] using hnd
      · exact fun k hkm => hk k (by simp [keysOf] at hkm ⊢; exact Or.inr hkm)

/-- `transformFields` is the identity on objects that are already canonical
for its table: this is the no-op-alias fact behind the pipeline's
idempotence. -/
theorem transformFields_id {M : List (String × String)} {l : List (String × JVal)}
    (h : CanonKeys M l) : transformFields M (.obj l) = .obj l := by
  have hb : transformFields M (.obj l) = .obj (l.foldl (transformFieldsStep M) []) := rfl
  rw [hb, foldl_transformFieldsStep_id l [] (by simpa [keysOf] using h.1) h.2]
  rfl

theorem foldl_transformFieldsStep_canon {M : List (String × String)}
    (hM : TableSelf M) :
    ∀ (l acc : List (String × JVal)), CanonKeys M acc →
    CanonKeys M (l.foldl (transformFieldsStep M) acc) := by
  intro l
  induction l with
  | nil => intro acc h; exact h
  | cons p rest ih =>
      intro acc hacc
      obtain ⟨pk, pv⟩ := p
      rw [List.foldl_cons]
      apply ih
      unfold transformFieldsStep
      by_cases hcond : getProp acc (targetKey M pk) = .undef ∨ pv ≠ .undef
      · rw [if_pos hcond]
        by_cases hmem : targetKey M pk ∈ keysOf acc
        · exact ⟨by rw [keysOf_setProp_mem _ hmem]; exact hacc.1,
                 by rw [keysOf_setProp_mem _ hmem]; exact hacc.2⟩
        · constructor
          · rw [keysOf_setProp_not_mem _ hmem, List.nodup_append]
            refine ⟨hacc.1, List.nodup_singleton _, ?_⟩
            intro a ha hb
            rw [List.mem_singleton] at hb
            exact hmem (hb ▸ ha)
          · rw [keysOf_setProp_not_mem _ hmem]
            intro k hkm
            rcases List.mem_append.mp hkm with hkm | hkm
            · exact hacc.2 k hkm
            · have hke : k = targetKey M pk := by simpa using hkm
              rw [hke]
              exact targetKey_fix hM pk
      · rw [if_neg hcond]
        exact hacc

/-- The output of the rewriter's fold is always canonical for a
self-canonical table. -/
theorem transformFields_canon {M : List (String × String)} (hM : TableSelf M)
    (entries : List (String × JVal)) :
    CanonKeys M (entries.foldl (transformFieldsStep M) []) :=
  foldl_transformFieldsStep_canon hM entries []
    ⟨List.nodup_nil, fun k hk => absurd hk (by simp [keysOf])⟩

/-- Every key of the rewriter's fold output is the rewrite of some input
entry's key (used to show fields cannot appear from nowhere). -/
theorem keysOf_foldl_transformFieldsStep {M : List (String × String)} :
    ∀ (l acc : List (String × JVal)) (k : String),
    k ∈ keysOf (l.foldl (transformFieldsStep M) acc) →
    k ∈ keysOf acc ∨ ∃ k₀ ∈ keysOf l, k = targetKey M k₀ := by
  intro l
  induction l with
  | nil => intro acc k hk; exact Or.inl hk
  | cons p rest ih =>
      intro acc k hk
      obtain ⟨pk, pv⟩ := p
      rw [List.foldl_cons] at hk
      rcases ih _ k hk with hmem | ⟨k₀, hk₀, he⟩
      · unfold transformFieldsStep at hmem
        by_cases hcond : getProp acc (targetKey M pk) = .undef ∨ pv ≠ .undef
        · rw [if_pos hcond] at hmem
          by_cases htk : targetKey M pk ∈ keysOf acc
          · rw [keysOf_setProp_mem _ htk] at hmem
            exact Or.inl hmem
          · rw [keysOf_setProp_not_mem _ htk] at hmem
            rcases List.mem_append.mp hmem with hmem | hmem
            · exact Or.inl hmem
            · exact Or.inr ⟨pk, by simp [keysOf], by simpa using hmem⟩
        · rw [if_neg hcond] at hmem
          exact Or.inl hmem
      · refine Or.inr ⟨k₀, ?_, he⟩
        simp only [keysOf, List.map_cons, List.mem_cons]
        simp only [keysOf] at hk₀
        exact Or.inr hk₀

/-- Absent keys for a canonical record: a key that is not a rewrite fixed
point cannot occur. -/
theorem lookupProp_eq_none_of_canon {M : List (String × String)}
    {l : List (String × JVal)} (h : CanonKeys M l) {k : String}
    (hk : targetKey M k ≠ k) : lookupProp l k = none := by
  apply lookupProp_eq_none_of_not_mem
  intro hmem
  exact hk (h.2 k hmem)

/-! ### Small evaluation lemmas for the JS primitives -/

theorem jget_obj (l : List (String × JVal)) (k : String) :
    jget (.obj l) k = .ok (getProp l k) := rfl

theorem jset_obj (l : List (String × JVal)) (k : String) (v : JVal) :
    jset (.obj l) k v = .ok (.obj (setProp l k v)) := rfl

theorem jor_of_truthy {a : JVal} (b : JVal) (h : truthy a = true) : jor a b = a := by
  rw [jor, if_pos h]

theorem jor_of_not_truthy {a : JVal} (b : JVal) (h : truthy a = false) : jor a b = b := by
  rw [jor, h]
  rfl

theorem truthy_jor {a b : JVal} (h : truthy b = true) : truthy (jor a b) = true := by
  rw [jor]
  by_cases ha : truthy a
  · rw [if_pos ha]; exact ha
  · rw [if_neg ha]; exact h

theorem str_append_ne_empty {s : String} (t : String) (h : s.length ≠ 0) :
    s ++ t ≠ "" := by
  intro he
  have hlen := congrArg String.length he
  rw [String.length_append] at hlen
  simp only [String.length_empty] at hlen
  omega

theorem truthy_str_append {s : String} (t : String) (h : s.length ≠ 0) :
    truthy (.str (s ++ t)) = true := by
  simp [truthy, str_append_ne_empty t h]

/-! ### Entity output invariants

Each `...Out` predicate captures the shape of the corresponding transform's
output; the `..._out` lemmas establish it and the `..._fix` lemmas show the
transform is the identity on it.  Together they give the pipeline its
idempotence. -/

/-- A non-null, non-undefined primitive (these pass through the rewriter and
the message normalizer untouched). -/
def JPrim (v : JVal) : Prop :=
  (∃ b, v = .bool b) ∨ (∃ q, v = .num q) ∨ (∃ s, v = .str s)

/-- The `languages` field, when present, is `undefined` or an all-string
array. -/
def LangsProp (l : List (String × JVal)) : Prop :=
  ∀ v, lookupProp l "languages" = some v →
    v = .undef ∨ ∃ xs, v = .arr xs ∧ ∀ x ∈ xs, isJStr x = true

/-- Output invariant of the message normalizer. -/
def MsgOut (m : JVal) : Prop :=
  JPrim m ∨ ∃ l, m = .obj l ∧ CanonKeys PREMADE_MESSAGE_FIELD_MAPPINGS l ∧ LangsProp l

theorem CanonKeys_setProp {M : List (String × String)} {l : List (String × JVal)}
    {k : String} (v : JVal) (h : CanonKeys M l) (hk : targetKey M k = k) :
    CanonKeys M (setProp l k v) := by
  by_cases hmem : k ∈ keysOf l
  · exact ⟨by rw [keysOf_setProp_mem _ hmem]; exact h.1,
           by rw [keysOf_setProp_mem _ hmem]; exact h.2⟩
  · constructor
    · rw [keysOf_setProp_not_mem _ hmem, List.nodup_append]
      refine ⟨h.1, List.nodup_singleton _, ?_⟩
      intro a ha hb
      rw [List.mem_singleton] at hb
      exact hmem (hb ▸ ha)
    · rw [keysOf_setProp_not_mem _ hmem]
      intro k' hk'
      rcases List.mem_append.mp hk' with hk' | hk'
      · exact h.2 k' hk'
      · have he : k' = k := by simpa using hk'
        rw [he]
        exact hk

theorem normalizeLanguages_spec (v : JVal) :
    ∃ xs, normalizeLanguages v = .arr xs ∧ ∀ x ∈ xs, isJStr x = true := by
  cases v with
  | arr elems =>
      exact ⟨elems.filter isJStr, rfl, fun x hx => (List.mem_filter.mp hx).2⟩
  | str s => exact ⟨[.str s], rfl, by intro x hx; simp at hx; subst hx; rfl⟩
  | undef => exact ⟨[], rfl, by simp⟩
  | null => exact ⟨[], rfl, by simp⟩
  | bool b => exact ⟨[], rfl, by simp⟩
  | num q => exact ⟨[], rfl, by simp⟩
  | obj fl => exact ⟨[], rfl, by simp⟩

theorem normalizeResponseSuggestions_spec (v : JVal) :
    ∃ xs, normalizeResponseSuggestions v = .arr xs ∧ ∀ x ∈ xs, isJStr x = true := by
  cases v with
  | arr elems =>
      exact ⟨elems.filter isJStr, rfl, fun x hx => (List.mem_filter.mp hx).2⟩
  | str s => exact ⟨[.str s], rfl, by intro x hx; simp at hx; subst hx; rfl⟩
  | undef => exact ⟨[], rfl, by simp⟩
  | null => exact ⟨[], rfl, by simp⟩
  | bool b => exact ⟨[], rfl, by simp⟩
  | num q => exact ⟨[], rfl, by simp⟩
  | obj fl => exact ⟨[], rfl, by simp⟩

/-- The message normalizer's output always satisfies `MsgOut`. -/
theorem transformPremadeMessage_out {raw m : JVal}
    (h : transformPremadeMessage raw = .ok m) : MsgOut m := by
  cases raw with
  | undef => simp [transformPremadeMessage, transformEntity, transformFields, jget,
      Except.bind, bind] at h
  | null => simp [transformPremadeMessage, transformEntity, transformFields, jget,
      Except.bind, bind] at h
  | bool b =>
      have he : transformPremadeMessage (.bool b) = .ok (.bool b) := rfl
      rw [he] at h
      cases h
      exact Or.inl (Or.inl ⟨b, rfl⟩)
  | num q =>
      have he : transformPremadeMessage (.num q) = .ok (.num q) := rfl
      rw [he] at h
      cases h
      exact Or.inl (Or.inr (Or.inl ⟨q, rfl⟩))
  | str s =>
      have he : transformPremadeMessage (.str s) = .ok (.str s) := rfl
      rw [he] at h
      cases h
      exact Or.inl (Or.inr (Or.inr ⟨s, rfl⟩))
  | arr elems =>
      have hcanon := transformFields_canon tableSelf_premadeMessage (jEntries (.arr elems))
      rw [transformPremadeMessage] at h
      simp only [transformEntity, FIELD_MAPPINGS, transformFields, jget, Except.bind,
        bind, pure, Except.pure, arrIndexGet] at h
      split at h
      case isTrue hcond =>
        simp only [jset, Except.ok.injEq] at h
        subst h
        refine Or.inr ⟨_, rfl, CanonKeys_setProp _ hcanon (by decide), ?_⟩
        intro v hv
        rw [lookupProp_setProp_self] at hv
        cases hv
        obtain ⟨xs, hxs, hall⟩ := normalizeLanguages_spec
          (jnullish (getProp ((jEntries (JVal.arr elems)).foldl
            (transformFieldsStep PREMADE_MESSAGE_FIELD_MAPPINGS) []) "languages")
            (arrIndexGet elems "language"))
        exact Or.inr ⟨xs, hxs, hall⟩
      case isFalse hcond =>
        simp only [Except.ok.injEq] at h
        subst h
        refine Or.inr ⟨_, rfl, hcanon, ?_⟩
        intro v hv
        push_neg at hcond
        have h1 := hcond.1
        rw [getProp, hv] at h1
        simp at h1
        exact Or.inl h1
  | obj fl =>
      have hcanon := transformFields_canon tableSelf_premadeMessage (jEntries (.obj fl))
      rw [transformPremadeMessage] at h
      simp only [transformEntity, FIELD_MAPPINGS, transformFields, jget, Except.bind,
        bind, pure, Except.pure, jEntries] at h
      split at h
      case isTrue hcond =>
        simp only [jset, Except.ok.injEq] at h
        subst h
        refine Or.inr ⟨_, rfl, ?_, ?_⟩
        · exact CanonKeys_setProp _ (by simpa [jEntries] using hcanon) (by decide)
        · intro v hv
          rw [lookupProp_setProp_self] at hv
          cases hv
          obtain ⟨xs, hxs, hall⟩ := normalizeLanguages_spec
            (jnullish (getProp (fl.foldl
              (transformFieldsStep PREMADE_MESSAGE_FIELD_MAPPINGS) []) "languages")
              (getProp fl "language"))
          exact Or.inr ⟨xs, hxs, hall⟩
      case isFalse hcond =>
        simp only [Except.ok.injEq] at h
        subst h
        refine Or.inr ⟨_, rfl, by simpa [jEntries] using hcanon, ?_⟩
        intro v hv
        push_neg at hcond
        have h1 := hcond.1
        rw [getProp, hv] at h1
        simp at h1
        exact Or.inl h1

/-- The alias rewrite is the identity on normalized messages. -/
theorem transformEntity_id_msgOut {m : JVal} (h : MsgOut m) :
    transformEntity .premadeMessage m = m := by
  rcases h with hp | ⟨l, rfl, hcanon, _⟩
  · rcases hp with ⟨b, rfl⟩ | ⟨q, rfl⟩ | ⟨s, rfl⟩ <;> rfl
  · exact transformFields_id hcanon

/-- The message normalizer is the identity on its own outputs. -/
theorem transformPremadeMessage_fix {m : JVal} (h : MsgOut m) :
    transformPremadeMessage m = .ok m := by
  rcases h with hp | ⟨l, rfl, hcanon, hlang⟩
  · rcases hp with ⟨b, rfl⟩ | ⟨q, rfl⟩ | ⟨s, rfl⟩ <;> rfl
  · have hid : transformEntity .premadeMessage (.obj l) = .obj l :=
      transformFields_id hcanon
    have hlangkey : getProp l "language" = .undef := by
      rw [getProp, lookupProp_eq_none_of_canon hcanon (by decide)]
      rfl
    rw [transformPremadeMessage, hid]
    simp only [jget_obj, Except.bind, bind, hlangkey]
    cases hl : lookupProp l "languages" with
    | none =>
        have hg : getProp l "languages" = .undef := by rw [getProp, hl]; rfl
        rw [hg, if_neg (by simp)]
        rfl
    | some v =>
        have hg : getProp l "languages" = v := by rw [getProp, hl]; rfl
        rw [hg]
        rcases hlang v hl with rfl | ⟨xs, rfl, hall⟩
        · rw [if_neg (by simp)]
          rfl
        · rw [if_pos (Or.inl (by simp))]
          have hnul : jnullish (JVal.arr xs) .undef = .arr xs := rfl
          have hnorm : normalizeLanguages (.arr xs) = .arr xs := by
            rw [normalizeLanguages]
            rw [List.filter_eq_self.mpr hall]
          rw [hnul, hnorm, jset_obj, setProp_self hl]

/-- `transformPremadeMessages` on an array of normalized messages returns it
unchanged. -/
theorem transformPremadeMessages_id {ms : List JVal} (h : ∀ m ∈ ms, MsgOut m) :
    transformPremadeMessages (.arr ms) = ms := by
  rw [transformPremadeMessages]
  simp only [truthy]
  rw [if_neg (by simp)]
  rw [List.map_congr_left (fun m hm => transformEntity_id_msgOut (h m hm))]
  exact List.map_id _

/-- `mapMessages` is the identity on normalized messages. -/
theorem mapMessages_fix {ms : List JVal} (h : ∀ m ∈ ms, MsgOut m) :
    mapMessages ms = .ok ms := by
  induction ms with
  | nil => rfl
  | cons m rest ih =>
      rw [mapMessages, transformPremadeMessage_fix (h m (.head _))]
      simp only [Except.bind, bind]
      rw [ih (fun x hx => h x (.tail _ hx))]
      rfl

/-- Every element produced by `mapMessages` is a normalized message. -/
theorem mapMessages_out : ∀ {ms ms' : List JVal}, mapMessages ms = .ok ms' →
    ∀ m ∈ ms', MsgOut m := by
  intro ms
  induction ms with
  | nil =>
      intro ms' h m hm
      rw [mapMessages] at h
      cases h
      cases hm
  | cons x rest ih =>
      intro ms' h m hm
      rw [mapMessages] at h
      cases hx : transformPremadeMessage x with
      | error e => rw [hx] at h; exact Except.noConfusion h
      | ok x' =>
          rw [hx] at h
          simp only [Except.bind, bind] at h
          cases hr : mapMessages rest with
          | error e => rw [hr] at h; exact Except.noConfusion h
          | ok rest' =>
              rw [hr] at h
              simp only [pure, Except.pure, Except.ok.injEq] at h
              subst h
              rcases hm with _ | hm
              · exact transformPremadeMessage_out hx
              · exact ih hr m (by assumption)

/-- Helper: a defined `getProp` value comes from a `lookupProp` hit. -/
theorem lookupProp_of_getProp_eq {l : List (String × JVal)} {k : String} {v : JVal}
    (h : getProp l k = v) (hv : v ≠ .undef) : lookupProp l k = some v := by
  subst h
  exact getProp_eq_lookupProp_of_ne_undef hv

/-- The character's `gender` field after normalization: if it is a nonempty
string whose lower-casing lies in the enum, it is already lower-case.  (This
is what makes re-normalizing it a no-op.) -/
def GenderFix (g : JVal) : Prop :=
  ∀ s, g = .str s → s ≠ "" →
    (lowerString s = "male" ∨ lowerString s = "female" ∨ lowerString s = "neutral") → lowerString s = s

/-- Core output invariant of `transformCharacter` (field-list form). -/
def CharCoreL (l : List (String × JVal)) : Prop :=
  CanonKeys CHARACTER_FIELD_MAPPINGS l ∧
  (∃ b, lookupProp l "isUser" = some (.bool b)) ∧
  GenderFix (getProp l "gender")

/-- Output invariant of the fully processed character. -/
def CharOut (c : JVal) : Prop :=
  ∃ l, c = .obj l ∧ CharCoreL l ∧
    truthy (getProp l "systemName") = true ∧ truthy (getProp l "displayName") = true

theorem charGender_part {t1L : List (String × JVal)} {t : JVal}
    (hcanon : CanonKeys CHARACTER_FIELD_MAPPINGS t1L)
    (hiu : ∃ b, lookupProp t1L "isUser" = some (.bool b))
    (h : (match getProp t1L "gender" with
          | JVal.str s =>
            if truthy (JVal.str s) = true then
              if lowerString s = "male" ∨ lowerString s = "female" ∨ lowerString s = "neutral" then
                Except.ok (JVal.obj (setProp t1L "gender" (JVal.str (lowerString s))))
              else Except.ok (JVal.obj t1L)
            else Except.ok (JVal.obj t1L)
          | _ => Except.ok (JVal.obj t1L) : Except JSError JVal) = Except.ok t) :
    ∃ l, t = .obj l ∧ CharCoreL l := by
  split at h
  case h_1 s hs =>
    split at h
    case isTrue htr =>
      split at h
      case isTrue hmem =>
        cases h
        refine ⟨_, rfl, CanonKeys_setProp _ hcanon (by decide), ?_, ?_⟩
        · obtain ⟨b, hb⟩ := hiu
          exact ⟨b, by rw [lookupProp_setProp_ne _ _ (by decide), hb]⟩
        · rw [getProp_setProp_self]
          intro s' hs' hne hmem'
          have hss : lowerString s = s' := JVal.str.inj hs'
          rcases hmem with hm | hm | hm <;>
            (rw [hm] at hss; rw [← hss]; decide)
      case isFalse hmem =>
        cases h
        refine ⟨_, rfl, hcanon, hiu, ?_⟩
        intro s' hs' hne hmem'
        rw [hs] at hs'
        have : s = s' := JVal.str.inj hs'
        exact absurd (this ▸ hmem') hmem
    case isFalse htr =>
      cases h
      refine ⟨_, rfl, hcanon, hiu, ?_⟩
      simp only [truthy, Bool.not_eq_true, decide_eq_false_iff_not, not_not] at htr
      intro s' hs' hne _
      rw [hs] at hs'
      exact absurd ((JVal.str.inj hs') ▸ htr) hne
  case h_2 hns =>
    cases h
    refine ⟨_, rfl, hcanon, hiu, ?_⟩
    intro s' hs' _ _
    exact ((hns s' hs').elim)

theorem transformCharacter_out_obj {fl : List (String × JVal)} {t : JVal}
    (h : transformCharacter (.obj fl) = .ok t) : ∃ l, t = .obj l ∧ CharCoreL l := by
  have hcanon : CanonKeys CHARACTER_FIELD_MAPPINGS
      (fl.foldl (transformFieldsStep CHARACTER_FIELD_MAPPINGS) []) :=
    transformFields_canon tableSelf_character fl
  rw [transformCharacter] at h
  simp only [transformEntity, FIELD_MAPPINGS, transformFields, jEntries, jget, jset,
    Except.bind, bind, pure, Except.pure] at h
  set L := fl.foldl (transformFieldsStep CHARACTER_FIELD_MAPPINGS) [] with hL
  split at h
  case h_1 b hb =>
    exact charGender_part hcanon ⟨b, lookupProp_of_getProp_eq hb (by simp)⟩ h
  case h_2 hb =>
    exact charGender_part (CanonKeys_setProp _ hcanon (by decide))
      ⟨false, lookupProp_setProp_self _ _ _⟩ h

/-- Every `.ok` output of `transformCharacter` satisfies the core
invariant. -/
theorem transformCharacter_out {raw t : JVal}
    (h : transformCharacter raw = .ok t) : ∃ l, t = .obj l ∧ CharCoreL l := by
  cases raw with
  | undef => simp [transformCharacter, transformEntity, transformFields, jget,
      Except.bind, bind] at h
  | null => simp [transformCharacter, transformEntity, transformFields, jget,
      Except.bind, bind] at h
  | bool b => simp [transformCharacter, transformEntity, transformFields, jget, jset,
      Except.bind, bind] at h
  | num q => simp [transformCharacter, transformEntity, transformFields, jget, jset,
      Except.bind, bind] at h
  | str s => simp [transformCharacter, transformEntity, transformFields, jget, jset,
      Except.bind, bind] at h
  | arr elems =>
      have he : transformCharacter (.arr elems) =
          transformCharacter (.obj (jEntries (.arr elems))) := rfl
      rw [he] at h
      exact transformCharacter_out_obj h
  | obj fl => exact transformCharacter_out_obj h

/-- `transformCharacter` is the identity on records satisfying its own
output invariant. -/
theorem transformCharacter_fix {l : List (String × JVal)} (h : CharCoreL l) :
    transformCharacter (.obj l) = .ok (.obj l) := by
  obtain ⟨hcanon, ⟨b, hiu⟩, hg⟩ := h
  have hid : transformEntity .character (.obj l) = .obj l := transformFields_id hcanon
  have hgu : getProp l "isUser" = .bool b := by rw [getProp, hiu]; rfl
  rw [transformCharacter, hid]
  simp only [jget_obj, Except.bind, bind, hgu, pure, Except.pure]
  split
  case h_2 hns => rfl
  case h_1 s hs =>
    by_cases hne : s = ""
    · subst hne
      rw [if_neg (by decide)]
    · rw [if_pos (by simp [truthy, hne])]
      by_cases hmem : lowerString s = "male" ∨ lowerString s = "female" ∨ lowerString s = "neutral"
      · rw [if_pos hmem, hg s hs hne hmem, jset_obj,
            setProp_self (lookupProp_of_getProp_eq hs (by simp))]
      · rw [if_neg hmem]

theorem CharCoreL_setProp_other {l : List (String × JVal)} {k : String} (v : JVal)
    (h : CharCoreL l) (hk : targetKey CHARACTER_FIELD_MAPPINGS k = k)
    (hk1 : k ≠ "isUser") (hk2 : k ≠ "gender") : CharCoreL (setProp l k v) := by
  obtain ⟨hcanon, ⟨b, hiu⟩, hg⟩ := h
  refine ⟨CanonKeys_setProp _ hcanon hk, ⟨b, ?_⟩, ?_⟩
  · rw [lookupProp_setProp_ne _ _ hk1, hiu]
  · rw [getProp_setProp_ne _ _ hk2]
    exact hg

/-- The per-character processing step always yields a fully normalized
character: core invariant plus truthy `systemName` and `displayName`. -/
theorem processCharacter_out {c t : JVal} {i : Nat} {w : List VIssue}
    (h : processCharacter c i = .ok (w, t)) : CharOut t := by
  rw [processCharacter] at h
  cases htc : transformCharacter c with
  | error e => rw [htc] at h; exact Except.noConfusion h
  | ok t0 =>
      rw [htc] at h
      obtain ⟨l0, rfl, hcore⟩ := transformCharacter_out htc
      simp only [jget_obj, Except.bind, bind, pure, Except.pure, jset_obj] at h
      by_cases hsys : truthy (getProp l0 "systemName") = true
      · rw [if_pos hsys] at h
        by_cases hdn : truthy (getProp l0 "displayName") = true
        · rw [if_pos hdn] at h
          cases h
          exact ⟨l0, rfl, hcore, hsys, hdn⟩
        · rw [if_neg hdn] at h
          simp only [jget_obj, jset_obj, Except.bind, Except.ok.injEq, Prod.mk.injEq] at h
          obtain ⟨-, rfl⟩ := h
          refine ⟨_, rfl, CharCoreL_setProp_other _ hcore (by decide) (by decide) (by decide),
                  ?_, ?_⟩
          · rw [getProp_setProp_ne _ _ (by decide)]
            exact hsys
          · rw [getProp_setProp_self]
            exact hsys
      · rw [if_neg hsys] at h
        have hsys' : truthy (getProp (setProp l0 "systemName"
            (.str ("character_" ++ toString i))) "systemName") = true := by
          rw [getProp_setProp_self]
          exact truthy_str_append _ (by decide)
        by_cases hdn : truthy (getProp (setProp l0 "systemName"
            (.str ("character_" ++ toString i))) "displayName") = true
        · rw [if_pos hdn] at h
          cases h
          exact ⟨_, rfl, CharCoreL_setProp_other _ hcore (by decide) (by decide) (by decide),
                 hsys', hdn⟩
        · rw [if_neg hdn] at h
          simp only [jget_obj, jset_obj, Except.bind, Except.ok.injEq, Prod.mk.injEq] at h
          obtain ⟨-, rfl⟩ := h
          refine ⟨_, rfl, ?_, ?_, ?_⟩
          · exact CharCoreL_setProp_other _
              (CharCoreL_setProp_other _ hcore (by decide) (by decide) (by decide))
              (by decide) (by decide) (by decide)
          · rw [getProp_setProp_ne _ _ (by decide)]
            exact hsys'
          · rw [getProp_setProp_self]
            exact hsys'

/-- The per-character step is the identity (and warns nothing) on a fully
normalized character. -/
theorem processCharacter_fix {c : JVal} (i : Nat) (h : CharOut c) :
    processCharacter c i = .ok ([], c) := by
  obtain ⟨l, rfl, hcore, hsys, hdn⟩ := h
  rw [processCharacter, transformCharacter_fix hcore]
  simp only [jget_obj, Except.bind, bind, pure, Except.pure]
  rw [if_pos hsys]
  rw [if_pos hdn]

/-- All characters produced by the map step are fully normalized. -/
theorem processCharacters_out : ∀ {cs : List JVal} {i : Nat} {w : List VIssue}
    {ts : List JVal}, processCharacters cs i = .ok (w, ts) → ∀ t ∈ ts, CharOut t := by
  intro cs
  induction cs with
  | nil =>
      intro i w ts h t ht
      rw [processCharacters] at h
      cases h
      cases ht
  | cons c rest ih =>
      intro i w ts h t ht
      rw [processCharacters] at h
      cases hc : processCharacter c i with
      | error e => rw [hc] at h; exact Except.noConfusion h
      | ok p =>
          obtain ⟨w1, t1⟩ := p
          rw [hc] at h
          simp only [Except.bind, bind] at h
          cases hr : processCharacters rest (i + 1) with
          | error e => rw [hr] at h; exact Except.noConfusion h
          | ok pr =>
              obtain ⟨ws, ts'⟩ := pr
              rw [hr] at h
              simp only [pure, Except.pure, Except.ok.injEq, Prod.mk.injEq] at h
              obtain ⟨-, rfl⟩ := h
              rcases ht with _ | ht
              · exact processCharacter_out hc
              · exact ih hr t (by assumption)

/-- The map step with no defects is the identity on normalized characters. -/
theorem processCharacters_fix : ∀ {cs : List JVal} (i : Nat),
    (∀ c ∈ cs, CharOut c) → processCharacters cs i = .ok ([], cs) := by
  intro cs
  induction cs with
  | nil => intro i _; rfl
  | cons c rest ih =>
      intro i h
      rw [processCharacters, processCharacter_fix i (h c (.head _))]
      simp only [Except.bind, bind]
      rw [ih (i + 1) (fun x hx => h x (.tail _ hx))]
      rfl

/-! ### Chat invariants -/

theorem ne_undef_of_truthy {v : JVal} (h : truthy v = true) : v ≠ .undef := by
  intro he
  subst he
  exact Bool.noConfusion h

/-- The chat's `conversationType` after normalization: truthy, and either
already rendering to `dm` (so the final `!== 'dm'` guard skips it) or the
literal `'group'`. -/
def ConvTypeFix (v : JVal) : Prop :=
  truthy v = true ∧ (lowerString (jToString v) = "dm" ∨ v = .str "group")

/-- Core output invariant of `transformChat` (field-list form). -/
def ChatCoreL (l : List (String × JVal)) : Prop :=
  CanonKeys CHAT_FIELD_MAPPINGS l ∧
  (∃ v, lookupProp l "conversationType" = some v ∧ ConvTypeFix v) ∧
  (∃ xs, lookupProp l "participants" = some (.arr xs))

/-- Output invariant of the fully processed chat. -/
def ChatOut (c : JVal) : Prop :=
  ∃ l, c = .obj l ∧ ChatCoreL l ∧
    truthy (getProp l "systemName") = true ∧ truthy (getProp l "displayName") = true

theorem chatParts_part {t1L : List (String × JVal)} {t : JVal}
    (hcanon : CanonKeys CHAT_FIELD_MAPPINGS t1L)
    (hct : ∃ v, lookupProp t1L "conversationType" = some v ∧ ConvTypeFix v)
    (h : (match getProp t1L "participants" with
          | JVal.arr xs => Except.ok (JVal.obj t1L)
          | _ => Except.ok (JVal.obj (setProp t1L "participants" (JVal.arr [])))
          : Except JSError JVal) = Except.ok t) :
    ∃ l, t = .obj l ∧ ChatCoreL l := by
  split at h
  case h_1 xs hxs =>
    cases h
    exact ⟨_, rfl, hcanon, hct, ⟨xs, lookupProp_of_getProp_eq hxs (by simp)⟩⟩
  case h_2 hns =>
    cases h
    refine ⟨_, rfl, CanonKeys_setProp _ hcanon (by decide), ?_, ?_⟩
    · obtain ⟨v, hv, hfix⟩ := hct
      exact ⟨v, by rw [lookupProp_setProp_ne _ _ (by decide), hv], hfix⟩
    · exact ⟨[], lookupProp_setProp_self _ _ _⟩

theorem transformChat_out_obj {fl : List (String × JVal)} {t : JVal}
    (h : transformChat (.obj fl) = .ok t) : ∃ l, t = .obj l ∧ ChatCoreL l := by
  have hcanon : CanonKeys CHAT_FIELD_MAPPINGS
      (fl.foldl (transformFieldsStep CHAT_FIELD_MAPPINGS) []) :=
    transformFields_canon tableSelf_chat fl
  rw [transformChat] at h
  simp only [transformEntity, FIELD_MAPPINGS, transformFields, jEntries, jget, jset,
    Except.bind, bind, pure, Except.pure] at h
  set L := fl.foldl (transformFieldsStep CHAT_FIELD_MAPPINGS) [] with hL
  split at h
  case isTrue htr =>
    split at h
    case isTrue hindiv =>
      exact chatParts_part (CanonKeys_setProp _ hcanon (by decide))
        ⟨.str "dm", lookupProp_setProp_self _ _ _, by decide, Or.inl (by decide)⟩ h
    case isFalse hindiv =>
      split at h
      case isTrue hgrp =>
        exact chatParts_part (CanonKeys_setProp _ hcanon (by decide))
          ⟨.str "group", lookupProp_setProp_self _ _ _, by decide, Or.inr rfl⟩ h
      case isFalse hgrp =>
        split at h
        case isTrue hnedm =>
          exact chatParts_part (CanonKeys_setProp _ hcanon (by decide))
            ⟨.str "dm", lookupProp_setProp_self _ _ _, by decide, Or.inl (by decide)⟩ h
        case isFalse hnedm =>
          push_neg at hnedm
          exact chatParts_part hcanon
            ⟨getProp L "conversationType",
             lookupProp_of_getProp_eq rfl (ne_undef_of_truthy htr),
             htr, Or.inl hnedm⟩ h
  case isFalse htr =>
    exact chatParts_part (CanonKeys_setProp _ hcanon (by decide))
      ⟨.str "dm", lookupProp_setProp_self _ _ _, by decide, Or.inl (by decide)⟩ h

/-- Every `.ok` output of `transformChat` satisfies the core invariant. -/
theorem transformChat_out {raw t : JVal}
    (h : transformChat raw = .ok t) : ∃ l, t = .obj l ∧ ChatCoreL l := by
  cases raw with
  | undef => simp [transformChat, transformEntity, transformFields, jget,
      Except.bind, bind] at h
  | null => simp [transformChat, transformEntity, transformFields, jget,
      Except.bind, bind] at h
  | bool b => simp [transformChat, transformEntity, transformFields, jget, jset,
      truthy, Except.bind, bind] at h
  | num q => simp [transformChat, transformEntity, transformFields, jget, jset,
      truthy, Except.bind, bind] at h
  | str s => simp [transformChat, transformEntity, transformFields, jget, jset,
      truthy, Except.bind, bind] at h
  | arr elems =>
      have he : transformChat (.arr elems) =
          transformChat (.obj (jEntries (.arr elems))) := rfl
      rw [he] at h
      exact transformChat_out_obj h
  | obj fl => exact transformChat_out_obj h

/-- `transformChat` is the identity on records satisfying its own output
invariant. -/
theorem transformChat_fix {l : List (String × JVal)} (h : ChatCoreL l) :
    transformChat (.obj l) = .ok (.obj l) := by
  obtain ⟨hcanon, ⟨v, hv, htr, hfix⟩, ⟨xs, hps⟩⟩ := h
  have hid : transformEntity .chat (.obj l) = .obj l := transformFields_id hcanon
  have hgv : getProp l "conversationType" = v := by rw [getProp, hv]; rfl
  have hgp : getProp l "participants" = .arr xs := by rw [getProp, hps]; rfl
  rw [transformChat, hid]
  simp only [jget_obj, Except.bind, bind, pure, Except.pure, hgv]
  rw [if_pos htr]
  rcases hfix with hdm | rfl
  · rw [hdm]
    rw [if_neg (by decide), if_neg (by decide), if_neg (by decide)]
    simp [hgp, jget_obj]
  · rw [show lowerString (jToString (JVal.str "group")) = "group" from by decide]
    rw [if_neg (by decide), if_pos (by decide), jset_obj, setProp_self hv]
    simp [hgp, jget_obj]

theorem ChatCoreL_setProp_other {l : List (String × JVal)} {k : String} (v : JVal)
    (h : ChatCoreL l) (hk : targetKey CHAT_FIELD_MAPPINGS k = k)
    (hk1 : k ≠ "conversationType") (hk2 : k ≠ "participants") :
    ChatCoreL (setProp l k v) := by
  obtain ⟨hcanon, ⟨v', hv', hfix⟩, ⟨xs, hps⟩⟩ := h
  refine ⟨CanonKeys_setProp _ hcanon hk, ⟨v', ?_, hfix⟩, ⟨xs, ?_⟩⟩
  · rw [lookupProp_setProp_ne _ _ hk1, hv']
  · rw [lookupProp_setProp_ne _ _ hk2, hps]

/-- The per-chat processing step always yields a fully normalized chat. -/
theorem processChat_out {c t : JVal} {i : Nat} {w : List VIssue}
    (h : processChat c i = .ok (w, t)) : ChatOut t := by
  rw [processChat] at h
  cases htc : transformChat c with
  | error e => rw [htc] at h; exact Except.noConfusion h
  | ok t0 =>
      rw [htc] at h
      obtain ⟨l0, rfl, hcore⟩ := transformChat_out htc
      simp only [jget_obj, Except.bind, bind, pure, Except.pure, jset_obj] at h
      by_cases hsys : truthy (getProp l0 "systemName") = true
      · rw [if_pos hsys] at h
        by_cases hdn : truthy (getProp l0 "displayName") = true
        · rw [if_pos hdn] at h
          cases h
          exact ⟨l0, rfl, hcore, hsys, hdn⟩
        · rw [if_neg hdn] at h
          simp only [jget_obj, jset_obj, Except.bind, Except.ok.injEq, Prod.mk.injEq] at h
          obtain ⟨-, rfl⟩ := h
          refine ⟨_, rfl, ChatCoreL_setProp_other _ hcore (by decide) (by decide) (by decide),
                  ?_, ?_⟩
          · rw [getProp_setProp_ne _ _ (by decide)]
            exact hsys
          · rw [getProp_setProp_self]
            exact hsys
      · rw [if_neg hsys] at h
        have hsys' : truthy (getProp (setProp l0 "systemName"
            (.str ("chat_" ++ toString i))) "systemName") = true := by
          rw [getProp_setProp_self]
          exact truthy_str_append _ (by decide)
        by_cases hdn : truthy (getProp (setProp l0 "systemName"
            (.str ("chat_" ++ toString i))) "displayName") = true
        · rw [if_pos hdn] at h
          cases h
          exact ⟨_, rfl, ChatCoreL_setProp_other _ hcore (by decide) (by decide) (by decide),
                 hsys', hdn⟩
        · rw [if_neg hdn] at h
          simp only [jget_obj, jset_obj, Except.bind, Except.ok.injEq, Prod.mk.injEq] at h
          obtain ⟨-, rfl⟩ := h
          refine ⟨_, rfl, ?_, ?_, ?_⟩
          · exact ChatCoreL_setProp_other _
              (ChatCoreL_setProp_other _ hcore (by decide) (by decide) (by decide))
              (by decide) (by decide) (by decide)
          · rw [getProp_setProp_ne _ _ (by decide)]
            exact hsys'
          · rw [getProp_setProp_self]
            exact hsys'

/-- The per-chat step is the identity on a fully normalized chat. -/
theorem processChat_fix {c : JVal} (i : Nat) (h : ChatOut c) :
    processChat c i = .ok ([], c) := by
  obtain ⟨l, rfl, hcore, hsys, hdn⟩ := h
  rw [processChat, transformChat_fix hcore]
  simp only [jget_obj, Except.bind, bind, pure, Except.pure]
  rw [if_pos hsys]
  rw [if_pos hdn]

/-- All chats produced by the map step are fully normalized. -/
theorem processChats_out : ∀ {cs : List JVal} {i : Nat} {w : List VIssue}
    {ts : List JVal}, processChats cs i = .ok (w, ts) → ∀ t ∈ ts, ChatOut t := by
  intro cs
  induction cs with
  | nil =>
      intro i w ts h t ht
      rw [processChats] at h
      cases h
      cases ht
  | cons c rest ih =>
      intro i w ts h t ht
      rw [processChats] at h
      cases hc : processChat c i with
      | error e => rw [hc] at h; exact Except.noConfusion h
      | ok p =>
          obtain ⟨w1, t1⟩ := p
          rw [hc] at h
          simp only [Except.bind, bind] at h
          cases hr : processChats rest (i + 1) with
          | error e => rw [hr] at h; exact Except.noConfusion h
          | ok pr =>
              obtain ⟨ws, ts'⟩ := pr
              rw [hr] at h
              simp only [pure, Except.pure, Except.ok.injEq, Prod.mk.injEq] at h
              obtain ⟨-, rfl⟩ := h
              rcases ht with _ | ht
              · exact processChat_out hc
              · exact ih hr t (by assumption)

/-- The chat map step is the identity on normalized chats. -/
theorem processChats_fix : ∀ {cs : List JVal} (i : Nat),
    (∀ c ∈ cs, ChatOut c) → processChats cs i = .ok ([], cs) := by
  intro cs
  induction cs with
  | nil => intro i _; rfl
  | cons c rest ih =>
      intro i h
      rw [processChats, processChat_fix i (h c (.head _))]
      simp only [Except.bind, bind]
      rw [ih (i + 1) (fun x hx => h x (.tail _ hx))]
      rfl

/-! ### Story invariants -/

/-- When the rewriter yields an object, the input was an object or array and
the output is canonical. -/
theorem transformEntity_obj_canon {e : EntityType} {raw : JVal}
    {L : List (String × JVal)} (h : transformEntity e raw = .obj L) :
    CanonKeys (FIELD_MAPPINGS e) L := by
  cases raw with
  | obj fl =>
      have he : transformEntity e (.obj fl) =
          .obj (fl.foldl (transformFieldsStep (FIELD_MAPPINGS e)) []) := rfl
      rw [he] at h
      cases h
      exact transformFields_canon (tableSelf_fieldMappings e) fl
  | arr elems =>
      have he : transformEntity e (.arr elems) =
          .obj ((jEntries (.arr elems)).foldl (transformFieldsStep (FIELD_MAPPINGS e)) []) := rfl
      rw [he] at h
      cases h
      exact transformFields_canon (tableSelf_fieldMappings e) _
  | undef => exact JVal.noConfusion h
  | null => exact JVal.noConfusion h
  | bool b => exact JVal.noConfusion h
  | num q => exact JVal.noConfusion h
  | str s => exact JVal.noConfusion h

/-- The story's `storyType` after normalization: if truthy and rendering
case-insensitively to the enum, it is stored as that lower-case rendering. -/
def StyFix (v : JVal) : Prop :=
  truthy v = true →
    (lowerString (jToString v) = "story" ∨ lowerString (jToString v) = "aula") →
    v = .str (lowerString (jToString v))

/-- Core output invariant of `transformStory` (field-list form). -/
def StoryCoreL (l : List (String × JVal)) : Prop :=
  CanonKeys STORY_FIELD_MAPPINGS l ∧
  (∀ s, lookupProp l "description" ≠ some (.str s)) ∧
  StyFix (getProp l "storyType")

/-- Output invariant of the checked story (the `systemName` may still be
missing; only `displayName` is forced truthy). -/
def StoryOut (s : JVal) : Prop :=
  ∃ l, s = .obj l ∧ StoryCoreL l ∧ truthy (getProp l "displayName") = true

theorem StoryCoreL_setProp_other {l : List (String × JVal)} {k : String} (v : JVal)
    (h : StoryCoreL l) (hk : targetKey STORY_FIELD_MAPPINGS k = k)
    (hk1 : k ≠ "description") (hk2 : k ≠ "storyType") : StoryCoreL (setProp l k v) := by
  obtain ⟨hcanon, hdesc, hsty⟩ := h
  refine ⟨CanonKeys_setProp _ hcanon hk, ?_, ?_⟩
  · intro s
    rw [lookupProp_setProp_ne _ _ hk1]
    exact hdesc s
  · rw [getProp_setProp_ne _ _ hk2]
    exact hsty

theorem storyType_part {t1L : List (String × JVal)} {t : JVal}
    (hcanon : CanonKeys STORY_FIELD_MAPPINGS t1L)
    (hdesc : ∀ s, lookupProp t1L "description" ≠ some (.str s))
    (h : (if truthy (getProp t1L "storyType") = true then
            if lowerString (jToString (getProp t1L "storyType")) = "story" ∨
                lowerString (jToString (getProp t1L "storyType")) = "aula" then
              Except.ok (JVal.obj (setProp t1L "storyType"
                (JVal.str (lowerString (jToString (getProp t1L "storyType"))))))
            else Except.ok (JVal.obj t1L)
          else Except.ok (JVal.obj t1L) : Except JSError JVal) = Except.ok t) :
    ∃ l, t = .obj l ∧ StoryCoreL l := by
  split at h
  case isTrue htr =>
    split at h
    case isTrue hmem =>
      cases h
      refine ⟨_, rfl, CanonKeys_setProp _ hcanon (by decide), ?_, ?_⟩
      · intro s
        rw [lookupProp_setProp_ne _ _ (by decide)]
        exact hdesc s
      · rw [getProp_setProp_self]
        intro _ _
        rcases hmem with hm | hm <;> rw [hm] <;> decide
    case isFalse hmem =>
      cases h
      exact ⟨_, rfl, hcanon, hdesc, fun _ hmem' => absurd hmem' hmem⟩
  case isFalse htr =>
    cases h
    exact ⟨_, rfl, hcanon, hdesc, fun htr' _ => absurd htr' htr⟩

/-- Every `.ok` output of `transformStory` that is an object satisfies the
core invariant (primitive inputs pass through and are rejected later by
`checkStory`'s property write). -/
theorem transformStory_out_obj {raw t : JVal} {L : List (String × JVal)}
    (hL : transformEntity .story raw = .obj L)
    (h : transformStory raw = .ok t) : ∃ l, t = .obj l ∧ StoryCoreL l := by
  have hcanon : CanonKeys STORY_FIELD_MAPPINGS L := transformEntity_obj_canon hL
  rw [transformStory, hL] at h
  simp only [jget_obj, jset_obj, Except.bind, bind, pure, Except.pure] at h
  split at h
  case h_1 s hs =>
    refine storyType_part ?_ ?_ h
    · exact CanonKeys_setProp _ hcanon (by decide)
    · intro s'
      rw [lookupProp_setProp_self]
      intro he
      exact JVal.noConfusion (Option.some.inj he)
  case h_2 hns =>
    refine storyType_part hcanon ?_ h
    intro s' he
    exact hns s' (by rw [getProp, he]; rfl)

/-- `transformStory` is the identity on records satisfying its own output
invariant. -/
theorem transformStory_fix {l : List (String × JVal)} (h : StoryCoreL l) :
    transformStory (.obj l) = .ok (.obj l) := by
  obtain ⟨hcanon, hdesc, hsty⟩ := h
  have hid : transformEntity .story (.obj l) = .obj l := transformFields_id hcanon
  rw [transformStory, hid]
  simp only [jget_obj, Except.bind, bind, pure, Except.pure]
  split
  case h_1 s hs =>
    exact (hdesc s (lookupProp_of_getProp_eq hs (by simp))).elim
  case h_2 hns =>
    by_cases htr : truthy (getProp l "storyType") = true
    · rw [if_pos htr]
      by_cases hmem : lowerString (jToString (getProp l "storyType")) = "story" ∨
          lowerString (jToString (getProp l "storyType")) = "aula"
      · rw [if_pos hmem, ← hsty htr hmem, jset_obj,
            setProp_self (lookupProp_of_getProp_eq rfl (ne_undef_of_truthy htr))]
      · rw [if_neg hmem]
    · rw [if_neg htr]

/-- What `checkStory` guarantees: the checked story is normalized with a
truthy `displayName`, the ERROR list is empty exactly when the incoming
`systemName` was truthy, no `displayName` default changes `systemName`, and
the warnings are at most the one `displayName` warning. -/
theorem checkStory_out {l0 : List (String × JVal)} {e w : List VIssue} {st : JVal}
    (hcore : StoryCoreL l0) (h : checkStory (.obj l0) = .ok (e, w, st)) :
    StoryOut st ∧ (e = [] ↔ truthy (getProp l0 "systemName") = true) ∧
    ∃ l, st = .obj l ∧ getProp l "systemName" = getProp l0 "systemName" := by
  rw [checkStory] at h
  simp only [jget_obj, Except.bind, bind, pure, Except.pure, jset_obj] at h
  by_cases hdn : truthy (getProp l0 "displayName") = true
  · rw [if_pos hdn] at h
    cases h
    refine ⟨⟨l0, rfl, hcore, hdn⟩, ?_, ⟨l0, rfl, rfl⟩⟩
    by_cases hsn : truthy (getProp l0 "systemName") = true
    · rw [if_pos hsn]
      simp [hsn]
    · rw [if_neg hsn]
      simp [hsn]
  · rw [if_neg hdn] at h
    cases h
    refine ⟨⟨_, rfl, StoryCoreL_setProp_other _ hcore (by decide) (by decide) (by decide),
            by rw [getProp_setProp_self]; exact truthy_jor (by decide)⟩, ?_,
            ⟨_, rfl, getProp_setProp_ne _ _ (by decide)⟩⟩
    by_cases hsn : truthy (getProp l0 "systemName") = true
    · rw [if_pos hsn]
      simp [hsn]
    · rw [if_neg hsn]
      simp [hsn]

/-- `checkStory` passes a normalized story through unchanged (possibly still
recording the missing-`systemName` error). -/
theorem checkStory_fix {l : List (String × JVal)} (hcore : StoryCoreL l)
    (hdn : truthy (getProp l "displayName") = true) :
    ∃ e, checkStory (.obj l) = .ok (e, [], .obj l) := by
  refine ⟨if truthy (getProp l "systemName") = true then []
          else [⟨"story.systemName", "Story is missing systemName (story_id)", none⟩], ?_⟩
  rw [checkStory]
  simp only [jget_obj, Except.bind, bind, pure, Except.pure]
  rw [if_pos hdn]

/-! ### Beat invariants -/

/-- Core output invariant of `transformBeat` (field-list form). -/
def BeatCoreL (l : List (String × JVal)) : Prop :=
  CanonKeys BEAT_FIELD_MAPPINGS l ∧
  (∃ ms, lookupProp l "openingMessages" = some (.arr ms) ∧ ∀ m ∈ ms, MsgOut m) ∧
  (∃ rs, lookupProp l "responseSuggestions" = some (.arr rs) ∧ ∀ x ∈ rs, isJStr x = true) ∧
  (∃ q, lookupProp l "sequencePosition" = some (.num q)) ∧
  (∃ bb, lookupProp l "isActive" = some (.bool bb))

/-- Output invariant of the fully processed beat. -/
def BeatOut (b : JVal) : Prop :=
  ∃ l, b = .obj l ∧ BeatCoreL l ∧
    truthy (getProp l "systemName") = true ∧ truthy (getProp l "displayName") = true

theorem transformBeat_out_aux {raw : JVal} {L : List (String × JVal)} {t : JVal}
    (hL : transformEntity .beat raw = .obj L)
    (hok : ∀ k, ∃ v, jget raw k = .ok v)
    (h : transformBeat raw = .ok t) : ∃ l, t = .obj l ∧ BeatCoreL l := by
  have hcanon : CanonKeys BEAT_FIELD_MAPPINGS L := transformEntity_obj_canon hL
  obtain ⟨pm, hpm⟩ := hok "premade_messages"
  obtain ⟨om, hom⟩ := hok "openingMessages"
  obtain ⟨ms, hms⟩ := hok "messages"
  obtain ⟨ct, hct⟩ := hok "content"
  obtain ⟨r1, hr1⟩ := hok "response_suggestions"
  obtain ⟨r2, hr2⟩ := hok "response_suggestion"
  obtain ⟨r3, hr3⟩ := hok "responseSuggestions"
  rw [transformBeat, hL, hpm, hom, hms, hct] at h
  simp only [Except.bind, bind, pure, Except.pure, jset_obj, jget_obj] at h
  cases hmm : mapMessages (transformPremadeMessages
      (jor pm (jor om (jor ms (jor ct (.arr [])))))) with
  | error e =>
      rw [hmm] at h
      exact Except.noConfusion h
  | ok oms =>
      rw [hmm] at h
      rw [hr1, hr2, hr3] at h
      simp only [Except.bind, bind, pure, Except.pure, jset_obj, jget_obj] at h
      have hmsg : ∀ m ∈ oms, MsgOut m := mapMessages_out hmm
      obtain ⟨rsl, hrsl, hrsall⟩ := normalizeResponseSuggestions_spec (jor r1 (jor r2 r3))
      rw [hrsl] at h
      set S := setProp (setProp L "openingMessages" (.arr oms))
          "responseSuggestions" (.arr rsl) with hS
      have hScanon : CanonKeys BEAT_FIELD_MAPPINGS S :=
        CanonKeys_setProp _ (CanonKeys_setProp _ hcanon (by decide)) (by decide)
      have hSom : lookupProp S "openingMessages" = some (.arr oms) := by
        rw [hS, lookupProp_setProp_ne _ _ (by decide), lookupProp_setProp_self]
      have hSrs : lookupProp S "responseSuggestions" = some (.arr rsl) :=
        lookupProp_setProp_self _ _ _
      split at h
      case h_1 q hq =>
        split at h
        case h_1 bb hbb =>
          cases h
          exact ⟨S, rfl, hScanon, ⟨oms, hSom, hmsg⟩, ⟨rsl, hSrs, hrsall⟩,
                 ⟨q, lookupProp_of_getProp_eq hq (by simp)⟩,
                 ⟨bb, lookupProp_of_getProp_eq hbb (by simp)⟩⟩
        case h_2 hnb =>
          cases h
          refine ⟨_, rfl, CanonKeys_setProp _ hScanon (by decide),
                 ⟨oms, ?_, hmsg⟩, ⟨rsl, ?_, hrsall⟩,
                 ⟨q, ?_⟩, ⟨true, lookupProp_setProp_self _ _ _⟩⟩
          · rw [lookupProp_setProp_ne _ _ (by decide), hSom]
          · rw [lookupProp_setProp_ne _ _ (by decide), hSrs]
          · rw [lookupProp_setProp_ne _ _ (by decide)]
            exact lookupProp_of_getProp_eq hq (by simp)
      case h_2 hnq =>
        set S2 := setProp S "sequencePosition" (.num 0) with hS2
        have hS2canon : CanonKeys BEAT_FIELD_MAPPINGS S2 :=
          CanonKeys_setProp _ hScanon (by decide)
        have hS2om : lookupProp S2 "openingMessages" = some (.arr oms) := by
          rw [hS2, lookupProp_setProp_ne _ _ (by decide), hSom]
        have hS2rs : lookupProp S2 "responseSuggestions" = some (.arr rsl) := by
          rw [hS2, lookupProp_setProp_ne _ _ (by decide), hSrs]
        have hS2sp : lookupProp S2 "sequencePosition" = some (.num 0) :=
          lookupProp_setProp_self _ _ _
        split at h
        case h_1 bb hbb =>
          cases h
          exact ⟨S2, rfl, hS2canon, ⟨oms, hS2om, hmsg⟩, ⟨rsl, hS2rs, hrsall⟩,
                 ⟨0, hS2sp⟩, ⟨bb, lookupProp_of_getProp_eq hbb (by simp)⟩⟩
        case h_2 hnb =>
          cases h
          refine ⟨_, rfl, CanonKeys_setProp _ hS2canon (by decide),
                 ⟨oms, ?_, hmsg⟩, ⟨rsl, ?_, hrsall⟩, ⟨0, ?_⟩,
                 ⟨true, lookupProp_setProp_self _ _ _⟩⟩
          · rw [lookupProp_setProp_ne _ _ (by decide), hS2om]
          · rw [lookupProp_setProp_ne _ _ (by decide), hS2rs]
          · rw [lookupProp_setProp_ne _ _ (by decide), hS2sp]

/-- Every `.ok` output of `transformBeat` satisfies the core invariant. -/
theorem transformBeat_out {raw t : JVal}
    (h : transformBeat raw = .ok t) : ∃ l, t = .obj l ∧ BeatCoreL l := by
  cases raw with
  | undef => simp [transformBeat, transformEntity, transformFields, jget,
      Except.bind, bind] at h
  | null => simp [transformBeat, transformEntity, transformFields, jget,
      Except.bind, bind] at h
  | bool b => simp [transformBeat, transformEntity, transformFields, jget, jset,
      truthy, jor, transformPremadeMessages, mapMessages,
      Except.bind, bind, pure, Except.pure] at h
  | num q => simp [transformBeat, transformEntity, transformFields, jget, jset,
      truthy, jor, transformPremadeMessages, mapMessages,
      Except.bind, bind, pure, Except.pure] at h
  | str s => simp [transformBeat, transformEntity, transformFields, jget, jset,
      truthy, jor, transformPremadeMessages, mapMessages,
      Except.bind, bind, pure, Except.pure] at h
  | arr elems =>
      exact @transformBeat_out_aux (.arr elems)
        ((jEntries (.arr elems)).foldl (transformFieldsStep BEAT_FIELD_MAPPINGS) []) t rfl
        (fun k => ⟨arrIndexGet elems k, rfl⟩) h
  | obj fl =>
      exact @transformBeat_out_aux (.obj fl)
        (fl.foldl (transformFieldsStep BEAT_FIELD_MAPPINGS) []) t rfl
        (fun k => ⟨getProp fl k, rfl⟩) h

theorem jor_undef (b : JVal) : jor .undef b = b := rfl

/-- `transformBeat` is the identity on records satisfying its own output
invariant: the `openingMessages` key (an alias target, so never spelled
`premade_messages` in normalized output) is truthy even when empty, and
renormalizing its messages is a no-op. -/
theorem transformBeat_fix {l : List (String × JVal)} (h : BeatCoreL l) :
    transformBeat (.obj l) = .ok (.obj l) := by
  obtain ⟨hcanon, ⟨ms, hom, hmsg⟩, ⟨rs, hrs, hrsall⟩, ⟨q, hsp⟩, ⟨bb, hia⟩⟩ := h
  have hid : transformEntity .beat (.obj l) = .obj l := transformFields_id hcanon
  have h1 : getProp l "premade_messages" = .undef := by
    rw [getProp, lookupProp_eq_none_of_canon hcanon (by decide)]
    rfl
  have h2 : getProp l "messages" = .undef := by
    rw [getProp, lookupProp_eq_none_of_canon hcanon (by decide)]
    rfl
  have h3 : getProp l "content" = .undef := by
    rw [getProp, lookupProp_eq_none_of_canon hcanon (by decide)]
    rfl
  have h4 : getProp l "response_suggestions" = .undef := by
    rw [getProp, lookupProp_eq_none_of_canon hcanon (by decide)]
    rfl
  have h5 : getProp l "response_suggestion" = .undef := by
    rw [getProp, lookupProp_eq_none_of_canon hcanon (by decide)]
    rfl
  have hgom : getProp l "openingMessages" = .arr ms := by rw [getProp, hom]; rfl
  have hgrs : getProp l "responseSuggestions" = .arr rs := by rw [getProp, hrs]; rfl
  have hgsp : getProp l "sequencePosition" = .num q := by rw [getProp, hsp]; rfl
  have hgia : getProp l "isActive" = .bool bb := by rw [getProp, hia]; rfl
  have hnorm : normalizeResponseSuggestions (.arr rs) = .arr rs := by
    rw [normalizeResponseSuggestions, List.filter_eq_self.mpr hrsall]
  rw [transformBeat, hid]
  simp only [jget_obj, Except.bind, bind, pure, Except.pure, h1, h2, h3, h4, h5,
    hgom, hgrs, hgsp, hgia, jor_undef]
  rw [jor_of_truthy (a := .arr ms) _ rfl, transformPremadeMessages_id hmsg,
    mapMessages_fix hmsg]
  simp only [Except.bind, jset_obj, setProp_self hom]
  simp only [jget_obj, hgrs, hnorm, jset_obj, setProp_self hrs, Except.bind,
    hgsp, hgia, pure, Except.pure]

theorem jget_ok_of_msgOut {m : JVal} (h : MsgOut m) (k : String) :
    ∃ v, jget m k = .ok v := by
  rcases h with hp | ⟨l, rfl, _, _⟩
  · rcases hp with ⟨b, rfl⟩ | ⟨q, rfl⟩ | ⟨s, rfl⟩ <;> exact ⟨.undef, rfl⟩
  · exact ⟨getProp l k, rfl⟩

/-- The per-message checks never throw on normalized messages (they only
push warnings). -/
theorem checkMessages_ok (i : Nat) : ∀ {ms : List JVal} (j : Nat),
    (∀ m ∈ ms, MsgOut m) → ∃ w, checkMessages i ms j = .ok w := by
  intro ms
  induction ms with
  | nil => intro j _; exact ⟨[], rfl⟩
  | cons m rest ih =>
      intro j hall
      obtain ⟨s, hs⟩ := jget_ok_of_msgOut (hall m (.head _)) "sender"
      obtain ⟨c, hc⟩ := jget_ok_of_msgOut (hall m (.head _)) "content"
      obtain ⟨w, hw⟩ := ih (j + 1) (fun x hx => hall x (.tail _ hx))
      refine ⟨(if truthy s = true then []
               else [⟨"beats[" ++ toString i ++ "].openingMessages[" ++ toString j ++ "].sender",
                     "Message missing sender (sender_id)", some m⟩]) ++
              (if truthy c = true then []
               else [⟨"beats[" ++ toString i ++ "].openingMessages[" ++ toString j ++ "].content",
                     "Message missing content (message)", some m⟩]) ++ w, ?_⟩
      rw [checkMessages, hs]
      simp only [Except.bind, bind, hc, hw, pure, Except.pure]

theorem BeatCoreL_setProp_other {l : List (String × JVal)} {k : String} (v : JVal)
    (h : BeatCoreL l) (hk : targetKey BEAT_FIELD_MAPPINGS k = k)
    (h1 : k ≠ "openingMessages") (h2 : k ≠ "responseSuggestions")
    (h3 : k ≠ "sequencePosition") (h4 : k ≠ "isActive") : BeatCoreL (setProp l k v) := by
  obtain ⟨hcanon, ⟨ms, hom, hmsg⟩, ⟨rs, hrs, hrsall⟩, ⟨q, hsp⟩, ⟨bb, hia⟩⟩ := h
  refine ⟨CanonKeys_setProp _ hcanon hk, ⟨ms, ?_, hmsg⟩, ⟨rs, ?_, hrsall⟩,
          ⟨q, ?_⟩, ⟨bb, ?_⟩⟩
  · rw [lookupProp_setProp_ne _ _ h1, hom]
  · rw [lookupProp_setProp_ne _ _ h2, hrs]
  · rw [lookupProp_setProp_ne _ _ h3, hsp]
  · rw [lookupProp_setProp_ne _ _ h4, hia]

/-- The per-beat processing step always yields a fully normalized beat. -/
theorem processBeat_out {b t : JVal} {i : Nat} {w : List VIssue}
    (h : processBeat b i = .ok (w, t)) : BeatOut t := by
  rw [processBeat] at h
  cases htb : transformBeat b with
  | error e => rw [htb] at h; exact Except.noConfusion h
  | ok t0 =>
      rw [htb] at h
      obtain ⟨l0, rfl, hcore⟩ := transformBeat_out htb
      have hmsg0 := hcore.2.1
      simp only [jget_obj, Except.bind, bind, pure, Except.pure, jset_obj] at h
      by_cases hsys : truthy (getProp l0 "systemName") = true
      · rw [if_pos hsys] at h
        by_cases hdn : truthy (getProp l0 "displayName") = true
        · rw [if_pos hdn] at h
          obtain ⟨ms, hom, hmsg⟩ := hmsg0
          have hgom : getProp l0 "openingMessages" = .arr ms := by
            rw [getProp, hom]; rfl
          obtain ⟨w3, hw3⟩ := checkMessages_ok i 0 hmsg
          simp only [hgom, hw3, Except.ok.injEq, Prod.mk.injEq] at h
          obtain ⟨-, rfl⟩ := h
          exact ⟨l0, rfl, hcore, hsys, hdn⟩
        · rw [if_neg hdn] at h
          set L1 := setProp l0 "displayName" (getProp l0 "systemName") with hL1
          have hcore1 : BeatCoreL L1 := BeatCoreL_setProp_other _ hcore (by decide)
            (by decide) (by decide) (by decide) (by decide)
          obtain ⟨ms, hom, hmsg⟩ := hcore1.2.1
          have hgom : getProp L1 "openingMessages" = .arr ms := by
            rw [getProp, hom]; rfl
          obtain ⟨w3, hw3⟩ := checkMessages_ok i 0 hmsg
          simp only [hgom, hw3, Except.ok.injEq, Prod.mk.injEq] at h
          obtain ⟨-, rfl⟩ := h
          refine ⟨L1, rfl, hcore1, ?_, ?_⟩
          · rw [hL1, getProp_setProp_ne _ _ (by decide)]
            exact hsys
          · rw [hL1, getProp_setProp_self]
            exact hsys
      · rw [if_neg hsys] at h
        set L1 := setProp l0 "systemName" (.str ("beat_" ++ toString i)) with hL1
        have hcore1 : BeatCoreL L1 := BeatCoreL_setProp_other _ hcore (by decide)
          (by decide) (by decide) (by decide) (by decide)
        have hsys1 : truthy (getProp L1 "systemName") = true := by
          rw [hL1, getProp_setProp_self]
          exact truthy_str_append _ (by decide)
        by_cases hdn : truthy (getProp L1 "displayName") = true
        · rw [if_pos hdn] at h
          obtain ⟨ms, hom, hmsg⟩ := hcore1.2.1
          have hgom : getProp L1 "openingMessages" = .arr ms := by
            rw [getProp, hom]; rfl
          obtain ⟨w3, hw3⟩ := checkMessages_ok i 0 hmsg
          simp only [hgom, hw3, Except.ok.injEq, Prod.mk.injEq] at h
          obtain ⟨-, rfl⟩ := h
          exact ⟨L1, rfl, hcore1, hsys1, hdn⟩
        · rw [if_neg hdn] at h
          set L2 := setProp L1 "displayName" (getProp L1 "systemName") with hL2
          have hcore2 : BeatCoreL L2 := BeatCoreL_setProp_other _ hcore1 (by decide)
            (by decide) (by decide) (by decide) (by decide)
          obtain ⟨ms, hom, hmsg⟩ := hcore2.2.1
          have hgom : getProp L2 "openingMessages" = .arr ms := by
            rw [getProp, hom]; rfl
          obtain ⟨w3, hw3⟩ := checkMessages_ok i 0 hmsg
          simp only [hgom, hw3, Except.ok.injEq, Prod.mk.injEq] at h
          obtain ⟨-, rfl⟩ := h
          refine ⟨L2, rfl, hcore2, ?_, ?_⟩
          · rw [hL2, getProp_setProp_ne _ _ (by decide)]
            exact hsys1
          · rw [hL2, getProp_setProp_self]
            exact hsys1

/-- The per-beat step leaves a fully normalized beat unchanged (it may
still warn about a falsy `conversationId` or message fields). -/
theorem processBeat_fix {b : JVal} (i : Nat) (h : BeatOut b) :
    ∃ w, processBeat b i = .ok (w, b) := by
  obtain ⟨l, rfl, hcore, hsys, hdn⟩ := h
  obtain ⟨ms, hom, hmsg⟩ := hcore.2.1
  have hgom : getProp l "openingMessages" = .arr ms := by rw [getProp, hom]; rfl
  obtain ⟨w3, hw3⟩ := checkMessages_ok i 0 hmsg
  refine ⟨[] ++ (if truthy (getProp l "conversationId") = true then []
          else [⟨"beats[" ++ toString i ++ "].conversationId",
                "Beat " ++ jToString (getProp l "systemName") ++
                  " missing conversationId (chat_id)", none⟩]) ++ w3, ?_⟩
  rw [processBeat, transformBeat_fix hcore]
  simp only [jget_obj, Except.bind, bind, pure, Except.pure]
  rw [if_pos hsys, if_pos hdn]
  simp only [hgom, hw3]

/-- All beats produced by the map step are fully normalized. -/
theorem processBeats_out : ∀ {bs : List JVal} {i : Nat} {w : List VIssue}
    {ts : List JVal}, processBeats bs i = .ok (w, ts) → ∀ t ∈ ts, BeatOut t := by
  intro bs
  induction bs with
  | nil =>
      intro i w ts h t ht
      rw [processBeats] at h
      cases h
      cases ht
  | cons b rest ih =>
      intro i w ts h t ht
      rw [processBeats] at h
      cases hb : processBeat b i with
      | error e => rw [hb] at h; exact Except.noConfusion h
      | ok p =>
          obtain ⟨w1, t1⟩ := p
          rw [hb] at h
          simp only [Except.bind, bind] at h
          cases hr : processBeats rest (i + 1) with
          | error e => rw [hr] at h; exact Except.noConfusion h
          | ok pr =>
              obtain ⟨ws, ts'⟩ := pr
              rw [hr] at h
              simp only [pure, Except.pure, Except.ok.injEq, Prod.mk.injEq] at h
              obtain ⟨-, rfl⟩ := h
              rcases ht with _ | ht
              · exact processBeat_out hb
              · exact ih hr t (by assumption)

/-- The beat map step keeps normalized beats unchanged (warnings may still
be produced). -/
theorem processBeats_fix : ∀ {bs : List JVal} (i : Nat),
    (∀ b ∈ bs, BeatOut b) → ∃ w, processBeats bs i = .ok (w, bs) := by
  intro bs
  induction bs with
  | nil => intro i _; exact ⟨[], rfl⟩
  | cons b rest ih =>
      intro i h
      obtain ⟨w1, hw1⟩ := processBeat_fix i (h b (.head _))
      obtain ⟨ws, hws⟩ := ih (i + 1) (fun x hx => h x (.tail _ hx))
      refine ⟨w1 ++ ws, ?_⟩
      rw [processBeats, hw1]
      simp only [Except.bind, bind, hws, pure, Except.pure]

/-! ### Whole-document invariant and idempotence -/

/-- Output invariant of the whole pipeline's `data` value. -/
def DocOut (d : JVal) : Prop :=
  ∃ s cs hs bs,
    d = .obj [("story", s), ("characters", .arr cs), ("chats", .arr hs),
              ("beats", .arr bs)] ∧
    StoryOut s ∧ (∀ c ∈ cs, CharOut c) ∧ (∀ h ∈ hs, ChatOut h) ∧ (∀ b ∈ bs, BeatOut b)

/-- `checkStory` can only succeed on an object: on any primitive the
`displayName` default write throws. -/
theorem checkStory_ok_shape {v : JVal} {x : List VIssue × List VIssue × JVal}
    (h : checkStory v = .ok x) : ∃ l, v = .obj l := by
  cases v with
  | obj l => exact ⟨l, rfl⟩
  | undef => simp [checkStory, jget, Except.bind, bind] at h
  | null => simp [checkStory, jget, Except.bind, bind] at h
  | bool b => simp [checkStory, jget, jset, truthy, Except.bind, bind] at h
  | num q => simp [checkStory, jget, jset, truthy, Except.bind, bind] at h
  | str s => simp [checkStory, jget, jset, truthy, Except.bind, bind] at h
  | arr es =>
      have hdn : arrIndexGet es "displayName" = .undef := by
        rw [arrIndexGet, show strToIndex "displayName" = none from by decide]
      have hsn : arrIndexGet es "systemName" = .undef := by
        rw [arrIndexGet, show strToIndex "systemName" = none from by decide]
      rw [checkStory] at h
      simp only [jget, Except.bind, bind, hdn, hsn, jset, truthy, pure, Except.pure] at h
      simp at h

/-- If `transformStory` produces an object, the rewriter stage already did
(primitives pass through both stages unchanged). -/
theorem transformStory_obj_inv {raw : JVal} {l : List (String × JVal)}
    (h : transformStory raw = .ok (.obj l)) :
    ∃ L, transformEntity .story raw = .obj L := by
  cases hte : transformEntity .story raw with
  | obj L => exact ⟨L, rfl⟩
  | undef => rw [transformStory, hte] at h; simp [jget, Except.bind, bind] at h
  | null => rw [transformStory, hte] at h; simp [jget, Except.bind, bind] at h
  | bool b =>
      rw [transformStory, hte] at h
      simp [jget, Except.bind, bind, truthy, pure, Except.pure] at h
  | num q =>
      rw [transformStory, hte] at h
      simp [jget, Except.bind, bind, truthy, pure, Except.pure] at h
  | str s =>
      rw [transformStory, hte] at h
      simp [jget, Except.bind, bind, truthy, pure, Except.pure] at h
  | arr es =>
      exact absurd hte (by cases raw <;> simp [transformEntity, transformFields])

/-- Everything in a successful pipeline run's `data` is normalized. -/
theorem validateObject_out {input : JVal} {r : VResult} {d : JVal}
    (hok : ∀ k, ∃ v, jget input k = .ok v)
    (h : validateObject input = .ok r) (hd : r.data = some d) : DocOut d := by
  obtain ⟨st1, hst1⟩ := hok "story"
  obtain ⟨st2, hst2⟩ := hok "story_info"
  obtain ⟨c1, hc1⟩ := hok "characters"
  obtain ⟨c2, hc2⟩ := hok "cast"
  obtain ⟨ev, hev⟩ := hok "entities"
  obtain ⟨ch1, hch1⟩ := hok "chats"
  obtain ⟨ch2, hch2⟩ := hok "new_chats"
  obtain ⟨ch3, hch3⟩ := hok "conversations"
  obtain ⟨ch4, hch4⟩ := hok "rooms"
  obtain ⟨b1, hb1⟩ := hok "beats"
  obtain ⟨b2, hb2⟩ := hok "all_beats"
  rw [validateObject, hst1, hst2, hc1, hc2, hev, hch1, hch2, hch3, hch4, hb1, hb2] at h
  simp only [Except.bind, bind, pure, Except.pure] at h
  split at h
  case h_1 => exact Except.noConfusion h
  case h_2 story0 hts =>
  split at h
  case h_1 => exact Except.noConfusion h
  case h_2 trip hcs =>
  obtain ⟨errs, storyWarns, story⟩ := trip
  split at h
  case h_1 => exact Except.noConfusion h
  case h_2 charElems hae =>
  split at h
  case h_1 => exact Except.noConfusion h
  case h_2 pc hpc =>
  obtain ⟨charWarns, characters⟩ := pc
  split at h
  case h_1 => exact Except.noConfusion h
  case h_2 chatElems hah =>
  split at h
  case h_1 => exact Except.noConfusion h
  case h_2 ph hph =>
  obtain ⟨chatWarns, chats⟩ := ph
  split at h
  case h_1 => exact Except.noConfusion h
  case h_2 beatElems hab =>
  split at h
  case h_1 => exact Except.noConfusion h
  case h_2 pb hpb =>
  obtain ⟨beatWarns, beats⟩ := pb
  simp only [Except.ok.injEq] at h
  subst h
  simp only at hd
  cases hd
  obtain ⟨l0, rfl⟩ := checkStory_ok_shape hcs
  obtain ⟨L, hL⟩ := transformStory_obj_inv hts
  obtain ⟨lt, hlt, hcore0⟩ := transformStory_out_obj hL hts
  cases hlt
  obtain ⟨hstoryOut, -, -⟩ := checkStory_out hcore0 hcs
  exact ⟨story, characters, chats, beats, rfl, hstoryOut,
         processCharacters_out hpc, processChats_out hph, processBeats_out hpb⟩

theorem jget_arr (elems : List JVal) (k : String) :
    jget (.arr elems) k = .ok (arrIndexGet elems k) := rfl

/-- Wrapper of `validateObject_out` through the shape check. -/
theorem validateParsed_out {p : JVal} {r : VResult} {d : JVal}
    (h : validateParsed p = .ok r) (hd : r.data = some d) : DocOut d := by
  have hfatal : (Except.ok (⟨false, none, [],
      [⟨"", "Input must be an object", none⟩]⟩ : VResult) : Except JSError VResult) =
      .ok r → False := by
    intro hr
    cases hr
    exact Option.noConfusion hd
  cases p with
  | obj fl => exact validateObject_out (fun k => ⟨getProp fl k, jget_obj fl k⟩) h hd
  | arr es => exact validateObject_out (fun k => ⟨arrIndexGet es k, jget_arr es k⟩) h hd
  | undef => exact (hfatal h).elim
  | null => exact (hfatal h).elim
  | bool b => exact (hfatal h).elim
  | num q => exact (hfatal h).elim
  | str s => exact (hfatal h).elim

/-- Running the pipeline on its own normalized output returns it verbatim:
every entity transform and every orchestrator check is the identity on a
`DocOut` document. -/
theorem validateParsed_fix {d : JVal} (h : DocOut d) :
    ∃ r', validateParsed d = .ok r' ∧ r'.data = some d := by
  obtain ⟨s, cs, hs, bs, rfl, hS, hC, hH, hB⟩ := h
  obtain ⟨ls, rfl, hscore, hsdn⟩ := hS
  have g1 : getProp [("story", JVal.obj ls), ("characters", JVal.arr cs),
      ("chats", JVal.arr hs), ("beats", JVal.arr bs)] "story" = .obj ls := by
    simp [getProp, lookupProp]
  have g2 : getProp [("story", JVal.obj ls), ("characters", JVal.arr cs),
      ("chats", JVal.arr hs), ("beats", JVal.arr bs)] "story_info" = .undef := by
    simp [getProp, lookupProp]
  have g3 : getProp [("story", JVal.obj ls), ("characters", JVal.arr cs),
      ("chats", JVal.arr hs), ("beats", JVal.arr bs)] "characters" = .arr cs := by
    simp [getProp, lookupProp]
  have g4 : getProp [("story", JVal.obj ls), ("characters", JVal.arr cs),
      ("chats", JVal.arr hs), ("beats", JVal.arr bs)] "cast" = .undef := by
    simp [getProp, lookupProp]
  have g5 : getProp [("story", JVal.obj ls), ("characters", JVal.arr cs),
      ("chats", JVal.arr hs), ("beats", JVal.arr bs)] "entities" = .undef := by
    simp [getProp, lookupProp]
  have g6 : getProp [("story", JVal.obj ls), ("characters", JVal.arr cs),
      ("chats", JVal.arr hs), ("beats", JVal.arr bs)] "chats" = .arr hs := by
    simp [getProp, lookupProp]
  have g7 : getProp [("story", JVal.obj ls), ("characters", JVal.arr cs),
      ("chats", JVal.arr hs), ("beats", JVal.arr bs)] "new_chats" = .undef := by
    simp [getProp, lookupProp]
  have g8 : getProp [("story", JVal.obj ls), ("characters", JVal.arr cs),
      ("chats", JVal.arr hs), ("beats", JVal.arr bs)] "conversations" = .undef := by
    simp [getProp, lookupProp]
  have g9 : getProp [("story", JVal.obj ls), ("characters", JVal.arr cs),
      ("chats", JVal.arr hs), ("beats", JVal.arr bs)] "rooms" = .undef := by
    simp [getProp, lookupProp]
  have g10 : getProp [("story", JVal.obj ls), ("characters", JVal.arr cs),
      ("chats", JVal.arr hs), ("beats", JVal.arr bs)] "beats" = .arr bs := by
    simp [getProp, lookupProp]
  have g11 : getProp [("story", JVal.obj ls), ("characters", JVal.arr cs),
      ("chats", JVal.arr hs), ("beats", JVal.arr bs)] "all_beats" = .undef := by
    simp [getProp, lookupProp]
  obtain ⟨e, hcse⟩ := checkStory_fix hscore hsdn
  obtain ⟨wb, hwb⟩ := processBeats_fix 0 hB
  have hvp : validateParsed (.obj [("story", JVal.obj ls), ("characters", JVal.arr cs),
      ("chats", JVal.arr hs), ("beats", JVal.arr bs)]) =
      validateObject (.obj [("story", JVal.obj ls), ("characters", JVal.arr cs),
      ("chats", JVal.arr hs), ("beats", JVal.arr bs)]) := rfl
  have j1 : ∀ b, jor (.obj ls) b = .obj ls := fun b => jor_of_truthy b rfl
  have j2 : ∀ b, jor (.arr cs) b = .arr cs := fun b => jor_of_truthy b rfl
  have j3 : ∀ b, jor (.arr hs) b = .arr hs := fun b => jor_of_truthy b rfl
  have j4 : ∀ b, jor (.arr bs) b = .arr bs := fun b => jor_of_truthy b rfl
  rw [hvp, validateObject]
  simp only [jget_obj, Except.bind, bind, pure, Except.pure, asArrayElems,
    g1, g2, g3, g4, g5, g6, g7, g8, g9, g10, g11, jor_undef, j1, j2, j3, j4,
    transformStory_fix hscore, hcse, processCharacters_fix 0 hC,
    processChats_fix 0 hH, hwb]
  exact ⟨_, rfl, rfl⟩

/-- Any `data` returned by the full entry point is normalized. -/
theorem validate_data_docOut {x d : JVal} {r : VResult}
    (hx : validateLLMStoryOutput x = .ok r) (hd : r.data = some d) : DocOut d := by
  cases x with
  | str text =>
      rw [validateLLMStoryOutput] at hx
      cases hp : jsonParse text with
      | some p =>
          rw [hp] at hx
          exact validateParsed_out hx hd
      | none =>
          rw [hp] at hx
          cases hx
          exact Option.noConfusion hd
  | obj fl =>
      exact validateParsed_out (show validateParsed (.obj fl) = .ok r from hx) hd
  | arr es =>
      exact validateParsed_out (show validateParsed (.arr es) = .ok r from hx) hd
  | undef =>
      exact validateParsed_out (show validateParsed .undef = .ok r from hx) hd
  | null =>
      exact validateParsed_out (show validateParsed .null = .ok r from hx) hd
  | bool b =>
      exact validateParsed_out (show validateParsed (.bool b) = .ok r from hx) hd
  | num q =>
      exact validateParsed_out (show validateParsed (.num q) = .ok r from hx) hd

/-- C1: Idempotence of the pipeline: whenever `validateLLMStoryOutput`
returns a result carrying `data`, running the pipeline again on that data
succeeds and returns the very same data — normalized output is a fixed
point, because canonical field names are no-op entries in every alias table
and every coercion is idempotent on its own output. -/
theorem validateLLMStoryOutput_idempotent {x d : JVal} {r : VResult}
    (hx : validateLLMStoryOutput x = .ok r) (hd : r.data = some d) :
    ∃ r', validateLLMStoryOutput d = .ok r' ∧ r'.data = some d := by
  have hdoc : DocOut d := validate_data_docOut hx hd
  obtain ⟨r', hr', hd'⟩ := validateParsed_fix hdoc
  obtain ⟨s, cs, hs, bs, hde, -, -, -, -⟩ := hdoc
  subst hde
  exact ⟨r', hr', hd'⟩

/-- A minimal valid input for the idempotence witness. -/
def c1Input : JVal :=
  .obj [("story", .obj [("story_id", .str "t"), ("title", .str "T")])]

/-- The pipeline's data for `c1Input`. -/
def c1Data : JVal :=
  .obj [("story", .obj [("systemName", .str "t"), ("displayName", .str "T")]),
        ("characters", .arr []), ("chats", .arr []), ("beats", .arr [])]

/-- Witness for C1 at a concrete input. -/
theorem validateLLMStoryOutput_idempotent_witness :
    ∃ r', validateLLMStoryOutput c1Data = .ok r' ∧ r'.data = some c1Data :=
  validateLLMStoryOutput_idempotent
    (show validateLLMStoryOutput c1Input =
      .ok ⟨true, some c1Data, [], []⟩ from rfl) rfl

/-! ### Aggregation (success flag, data presence) -/

/-- `typeof v === 'object' && v` in the shape check: objects and arrays. -/
def isObjLike : JVal → Bool
  | .obj _ => true
  | .arr _ => true
  | _ => false

/-- Parse-and-shape success: string input must parse as JSON to an
object-like value; other input must already be object-like. -/
def parseShapeOk : JVal → Bool
  | .str text =>
      (match jsonParse text with
       | some p => isObjLike p
       | none => false)
  | v => isObjLike v

/-- Structural facts about any successful `validateObject` run: data is
always produced, and success is exactly emptiness of the error list. -/
theorem validateObject_shape {input : JVal} {r : VResult}
    (hok : ∀ k, ∃ v, jget input k = .ok v)
    (h : validateObject input = .ok r) :
    r.data.isSome = true ∧ (r.success = true ↔ r.errors = []) := by
  obtain ⟨st1, hst1⟩ := hok "story"
  obtain ⟨st2, hst2⟩ := hok "story_info"
  obtain ⟨c1, hc1⟩ := hok "characters"
  obtain ⟨c2, hc2⟩ := hok "cast"
  obtain ⟨ev, hev⟩ := hok "entities"
  obtain ⟨ch1, hch1⟩ := hok "chats"
  obtain ⟨ch2, hch2⟩ := hok "new_chats"
  obtain ⟨ch3, hch3⟩ := hok "conversations"
  obtain ⟨ch4, hch4⟩ := hok "rooms"
  obtain ⟨b1, hb1⟩ := hok "beats"
  obtain ⟨b2, hb2⟩ := hok "all_beats"
  rw [validateObject, hst1, hst2, hc1, hc2, hev, hch1, hch2, hch3, hch4, hb1, hb2] at h
  simp only [Except.bind, bind, pure, Except.pure] at h
  split at h
  case h_1 => exact Except.noConfusion h
  case h_2 story0 hts =>
  split at h
  case h_1 => exact Except.noConfusion h
  case h_2 trip hcs =>
  split at h
  case h_1 => exact Except.noConfusion h
  case h_2 charElems hae =>
  split at h
  case h_1 => exact Except.noConfusion h
  case h_2 pc hpc =>
  split at h
  case h_1 => exact Except.noConfusion h
  case h_2 chatElems hah =>
  split at h
  case h_1 => exact Except.noConfusion h
  case h_2 ph hph =>
  split at h
  case h_1 => exact Except.noConfusion h
  case h_2 beatElems hab =>
  split at h
  case h_1 => exact Except.noConfusion h
  case h_2 pb hpb =>
  simp only [Except.ok.injEq] at h
  subst h
  exact ⟨rfl, by simp [List.isEmpty_iff]⟩

/-- C6: Aggregation contract: for every run that returns, `success` is true
iff the error list is empty, and `data` is present exactly when JSON
parsing and the object-shape check succeed — independent of `success`, so a
missing story identifier still yields data (see the witness); on the two
fatal conditions no data is produced. -/
theorem validateLLMStoryOutput_aggregation {raw : JVal} {r : VResult}
    (h : validateLLMStoryOutput raw = .ok r) :
    (r.success = true ↔ r.errors = []) ∧ r.data.isSome = parseShapeOk raw := by
  have hfatal : ∀ msg, (Except.ok (⟨false, none, [], [⟨"", msg, none⟩]⟩ : VResult) :
      Except JSError VResult) = .ok r →
      (r.success = true ↔ r.errors = []) ∧ r.data.isSome = false := by
    intro msg hr
    cases hr
    refine ⟨?_, rfl⟩
    simp
  have hmain : ∀ p : JVal, validateParsed p = .ok r →
      (r.success = true ↔ r.errors = []) ∧ r.data.isSome = isObjLike p := by
    intro p hp
    cases p with
    | obj fl =>
        obtain ⟨hd, hs⟩ := validateObject_shape (fun k => ⟨getProp fl k, jget_obj fl k⟩) hp
        exact ⟨hs, hd⟩
    | arr es =>
        obtain ⟨hd, hs⟩ := validateObject_shape (fun k => ⟨arrIndexGet es k, jget_arr es k⟩) hp
        exact ⟨hs, hd⟩
    | undef => exact hfatal _ hp
    | null => exact hfatal _ hp
    | bool b => exact hfatal _ hp
    | num q => exact hfatal _ hp
    | str s => exact hfatal _ hp
  cases raw with
  | str text =>
      rw [validateLLMStoryOutput] at h
      cases hp : jsonParse text with
      | some p =>
          rw [hp] at h
          have := hmain p h
          rw [parseShapeOk, hp]
          exact this
      | none =>
          rw [hp] at h
          have := hfatal _ h
          rw [parseShapeOk, hp]
          exact this
  | obj fl => exact hmain _ (show validateParsed (.obj fl) = .ok r from h)
  | arr es => exact hmain _ (show validateParsed (.arr es) = .ok r from h)
  | undef => exact hmain _ (show validateParsed .undef = .ok r from h)
  | null => exact hmain _ (show validateParsed .null = .ok r from h)
  | bool b => exact hmain _ (show validateParsed (.bool b) = .ok r from h)
  | num q => exact hmain _ (show validateParsed (.num q) = .ok r from h)

/-- Witness for C6 at the empty document: the story id is missing, so
`success` is false with a non-empty error list, yet `data` is present. -/
theorem validateLLMStoryOutput_aggregation_witness :
    ((false = true ↔ ([⟨"story.systemName", "Story is missing systemName (story_id)",
        none⟩] : List VIssue) = []) ∧
     (some (JVal.obj [("story", .obj [("displayName", .str "Untitled")]),
        ("characters", .arr []), ("chats", .arr []), ("beats", .arr [])])).isSome =
       parseShapeOk (.obj [])) := by
  have h := validateLLMStoryOutput_aggregation
    (show validateLLMStoryOutput (.obj []) = .ok
      ⟨false, some (JVal.obj [("story", .obj [("displayName", .str "Untitled")]),
        ("characters", .arr []), ("chats", .arr []), ("beats", .arr [])]),
       [⟨"story.displayName", "Story is missing displayName (title)", none⟩],
       [⟨"story.systemName", "Story is missing systemName (story_id)", none⟩]⟩ from rfl)
  exact h

/-! ### Entity naming (claim C3) -/

/-- Counterexample to the claim that every entity in returned data has a
non-empty `systemName`: the empty document passes the parse and shape
checks, yet the story in the returned data has no `systemName` at all (it
is recorded as an ERROR instead). -/
theorem validate_story_systemName_absent_counterexample :
    validateLLMStoryOutput (.obj []) =
      .ok ⟨false,
           some (.obj [("story", .obj [("displayName", .str "Untitled")]),
                       ("characters", .arr []), ("chats", .arr []),
                       ("beats", .arr [])]),
           [⟨"story.displayName", "Story is missing displayName (title)", none⟩],
           [⟨"story.systemName", "Story is missing systemName (story_id)", none⟩]⟩ ∧
    getProp [("displayName", .str "Untitled")] "systemName" = .undef :=
  ⟨rfl, rfl⟩

/-- C3 (amended): in every returned `data`, each character, chat, and beat
has a truthy (in particular non-empty when a string) `systemName` and
`displayName` — synthesized deterministically as `character_<i>` /
`chat_<i>` / `beat_<i>` and defaulted from `systemName` when absent — and
the story always has a truthy `displayName` (defaulted from `systemName` or
`"Untitled"`); the story's own `systemName`, however, may be absent, with
the missing-id ERROR recorded instead. -/
theorem validateLLMStoryOutput_entity_names {x d : JVal} {r : VResult}
    (hx : validateLLMStoryOutput x = .ok r) (hd : r.data = some d) :
    ∃ s cs hs bs,
      d = .obj [("story", s), ("characters", .arr cs), ("chats", .arr hs),
                ("beats", .arr bs)] ∧
      (∃ ls, s = .obj ls ∧ truthy (getProp ls "displayName") = true) ∧
      (∀ c ∈ cs, ∃ l, c = .obj l ∧ truthy (getProp l "systemName") = true ∧
        truthy (getProp l "displayName") = true) ∧
      (∀ h ∈ hs, ∃ l, h = .obj l ∧ truthy (getProp l "systemName") = true ∧
        truthy (getProp l "displayName") = true) ∧
      (∀ b ∈ bs, ∃ l, b = .obj l ∧ truthy (getProp l "systemName") = true ∧
        truthy (getProp l "displayName") = true) := by
  obtain ⟨s, cs, hs, bs, rfl, hS, hC, hH, hB⟩ := validate_data_docOut hx hd
  refine ⟨s, cs, hs, bs, rfl, ?_, ?_, ?_, ?_⟩
  · obtain ⟨ls, rfl, -, hdn⟩ := hS
    exact ⟨ls, rfl, hdn⟩
  · intro c hc
    obtain ⟨l, rfl, -, hsys, hdn⟩ := hC c hc
    exact ⟨l, rfl, hsys, hdn⟩
  · intro h hh
    obtain ⟨l, rfl, -, hsys, hdn⟩ := hH h hh
    exact ⟨l, rfl, hsys, hdn⟩
  · intro b hb
    obtain ⟨l, rfl, -, hsys, hdn⟩ := hB b hb
    exact ⟨l, rfl, hsys, hdn⟩

/-- Witness for C3 at a document with an anonymous character, chat, and
beat: all three receive synthetic ids. -/
theorem validateLLMStoryOutput_entity_names_witness :
    ∃ s cs hs bs,
      JVal.obj [("story", .obj [("systemName", .str "t"),
                                ("displayName", .str "t")]),
                ("characters", .arr [.obj [("isUser", .bool false),
                  ("systemName", .str "character_0"),
                  ("displayName", .str "character_0")]]),
                ("chats", .arr [.obj [("conversationType", .str "dm"),
                  ("participants", .arr []), ("systemName", .str "chat_0"),
                  ("displayName", .str "chat_0")]]),
                ("beats", .arr [.obj [("openingMessages", .arr []),
                  ("responseSuggestions", .arr []), ("sequencePosition", .num 0),
                  ("isActive", .bool true), ("systemName", .str "beat_0"),
                  ("displayName", .str "beat_0")]])] =
        .obj [("story", s), ("characters", .arr cs), ("chats", .arr hs),
              ("beats", .arr bs)] ∧
      (∃ ls, s = .obj ls ∧ truthy (getProp ls "displayName") = true) ∧
      (∀ c ∈ cs, ∃ l, c = .obj l ∧ truthy (getProp l "systemName") = true ∧
        truthy (getProp l "displayName") = true) ∧
      (∀ h ∈ hs, ∃ l, h = .obj l ∧ truthy (getProp l "systemName") = true ∧
        truthy (getProp l "displayName") = true) ∧
      (∀ b ∈ bs, ∃ l, b = .obj l ∧ truthy (getProp l "systemName") = true ∧
        truthy (getProp l "displayName") = true) :=
  validateLLMStoryOutput_entity_names
    (show validateLLMStoryOutput (.obj [("story", .obj [("story_id", .str "t")]),
        ("characters", .arr [.obj []]), ("chats", .arr [.obj []]),
        ("beats", .arr [.obj []])]) = .ok
      ⟨true,
       some (.obj [("story", .obj [("systemName", .str "t"),
                                   ("displayName", .str "t")]),
                   ("characters", .arr [.obj [("isUser", .bool false),
                     ("systemName", .str "character_0"),
                     ("displayName", .str "character_0")]]),
                   ("chats", .arr [.obj [("conversationType", .str "dm"),
                     ("participants", .arr []), ("systemName", .str "chat_0"),
                     ("displayName", .str "chat_0")]]),
                   ("beats", .arr [.obj [("openingMessages", .arr []),
                     ("responseSuggestions", .arr []), ("sequencePosition", .num 0),
                     ("isActive", .bool true), ("systemName", .str "beat_0"),
                     ("displayName", .str "beat_0")]])]),
       [⟨"story.displayName", "Story is missing displayName (title)", none⟩,
        ⟨"characters[0].systemName", "Character at index 0 missing systemName (id)", none⟩,
        ⟨"chats[0].systemName", "Chat at index 0 missing systemName (chat_id)", none⟩,
        ⟨"beats[0].systemName", "Beat at index 0 missing systemName (beat_id)", none⟩,
        ⟨"beats[0].conversationId", "Beat beat_0 missing conversationId (chat_id)", none⟩],
       []⟩ from rfl) rfl

/-! ### Message languages (claim C4) -/

/-- Counterexample to "absence of any language field yields an empty
sequence": a message with neither `language` nor `languages` normalizes to
a record with no `languages` key at all (the guard in
`transformPremadeMessage` skips `normalizeLanguages` entirely). -/
theorem transformPremadeMessage_languages_absent_counterexample :
    transformPremadeMessage (.obj [("message", .str "hi")]) =
      .ok (.obj [("content", .str "hi")]) ∧
    lookupProp [("content", .str "hi")] "languages" = none :=
  ⟨rfl, rfl⟩

/-- Only the `language`/`languages` aliases rewrite to `languages`. -/
theorem targetKey_languages_preimage {k : String}
    (h : targetKey PREMADE_MESSAGE_FIELD_MAPPINGS k = "languages") :
    k = "language" ∨ k = "languages" := by
  rw [targetKey] at h
  cases hl : PREMADE_MESSAGE_FIELD_MAPPINGS.lookup k with
  | none => rw [hl] at h; exact Or.inr h
  | some tt =>
      rw [hl] at h
      by_cases ht : tt = ""
      · subst ht
        simp only [if_pos rfl] at h
        exact Or.inr h
      · simp only [if_neg ht] at h
        subst h
        have hmem := mem_of_lookup_eq_some hl
        exact (show ∀ p ∈ PREMADE_MESSAGE_FIELD_MAPPINGS, p.2 = "languages" →
          p.1 = "language" ∨ p.1 = "languages" from by decide) _ hmem rfl

/-- C4 (amended): after aliasing, a scalar-string languages value becomes a
one-element sequence and a sequence is filtered to its string elements —
but when the raw message has neither a `language` nor a `languages` key,
the normalized message has no `languages` field at all (not an empty
sequence). -/
theorem transformPremadeMessage_languages {fl : List (String × JVal)}
    {L : List (String × JVal)} {t : JVal}
    (hL : transformEntity .premadeMessage (.obj fl) = .obj L)
    (h : transformPremadeMessage (.obj fl) = .ok t) :
    (∀ s, getProp L "languages" = .str s →
       t = .obj (setProp L "languages" (.arr [.str s]))) ∧
    (∀ xs, getProp L "languages" = .arr xs →
       t = .obj (setProp L "languages" (.arr (xs.filter isJStr)))) ∧
    ("language" ∉ keysOf fl → "languages" ∉ keysOf fl →
       t = .obj L ∧ "languages" ∉ keysOf L) := by
  rw [transformPremadeMessage, hL] at h
  simp only [jget_obj, Except.bind, bind, pure, Except.pure] at h
  refine ⟨?_, ?_, ?_⟩
  · intro s hs
    rw [hs, if_pos (Or.inl (by simp))] at h
    simp only [jnullish, normalizeLanguages, jset_obj, Except.ok.injEq] at h
    exact h.symm
  · intro xs hxs
    rw [hxs, if_pos (Or.inl (by simp))] at h
    simp only [jnullish, normalizeLanguages, jset_obj, Except.ok.injEq] at h
    exact h.symm
  · intro h1 h2
    have hLkey : "languages" ∉ keysOf L := by
      intro hmem
      have hfold : L = fl.foldl (transformFieldsStep PREMADE_MESSAGE_FIELD_MAPPINGS) [] := by
        have := hL
        rw [show transformEntity .premadeMessage (.obj fl) =
          .obj (fl.foldl (transformFieldsStep PREMADE_MESSAGE_FIELD_MAPPINGS) [])
          from rfl] at this
        exact (JVal.obj.inj this).symm
      rw [hfold] at hmem
      rcases keysOf_foldl_transformFieldsStep fl [] _ hmem with hc | ⟨k₀, hk₀, he⟩
      · simp [keysOf] at hc
      · rcases targetKey_languages_preimage he.symm with rfl | rfl
        · exact h1 hk₀
        · exact h2 hk₀
    have hgL : getProp L "languages" = .undef := getProp_eq_undef_of_not_mem hLkey
    have hgfl : getProp fl "language" = .undef := getProp_eq_undef_of_not_mem h1
    rw [hgL, hgfl, if_neg (by simp)] at h
    cases h
    exact ⟨rfl, hLkey⟩

/-- Witness for C4: the scalar `language: "es"` becomes the one-element
sequence `["es"]`. -/
theorem transformPremadeMessage_languages_witness :
    JVal.obj [("languages", .arr [.str "es"])] =
      .obj (setProp [("languages", .str "es")] "languages" (.arr [.str "es"])) :=
  (@transformPremadeMessage_languages [("language", .str "es")]
    [("languages", .str "es")] (.obj [("languages", .arr [.str "es"])])
    rfl rfl).1 "es" rfl |>.symm.symm

/-! ### Scenario C (claim C9) -/

/-- Counterexample to Scenario C as stated: a document whose beats
collection contains only the beat
`\x7bbeat_id:"b1", premade_messages:[\x7bmessage:"hi"\x7d]\x7d` does NOT
return `success=true` with two warnings — without a story carrying an id
the run returns `success=false`, a missing-story-systemName error, and a
third warning for the story displayName. -/
theorem validate_scenarioC_counterexample :
    validateLLMStoryOutput (.obj [("beats", .arr [.obj [("beat_id", .str "b1"),
      ("premade_messages", .arr [.obj [("message", .str "hi")]])]])]) =
    .ok ⟨false,
      some (.obj [("story", .obj [("displayName", .str "Untitled")]),
        ("characters", .arr []), ("chats", .arr []),
        ("beats", .arr [.obj [("systemName", .str "b1"),
          ("openingMessages", .arr [.obj [("content", .str "hi")]]),
          ("responseSuggestions", .arr []),
          ("sequencePosition", .num 0), ("isActive", .bool true),
          ("displayName", .str "b1")]])]),
      [⟨"story.displayName", "Story is missing displayName (title)", none⟩,
       ⟨"beats[0].conversationId", "Beat b1 missing conversationId (chat_id)", none⟩,
       ⟨"beats[0].openingMessages[0].sender", "Message missing sender (sender_id)",
        some (.obj [("content", .str "hi")])⟩],
      [⟨"story.systemName", "Story is missing systemName (story_id)", none⟩]⟩ := rfl

/-- C9 (amended): Scenario C holds once the document also carries a story
with an id: with story `\x7bstory_id:"t", title:"T"\x7d` and the single
beat `\x7bbeat_id:"b1", premade_messages:[\x7bmessage:"hi"\x7d]\x7d`, the
run returns `success=true` with exactly two warnings — the beat's missing
`conversationId` and the message's missing `sender`. -/
theorem validate_scenarioC :
    validateLLMStoryOutput (.obj [
      ("story", .obj [("story_id", .str "t"), ("title", .str "T")]),
      ("beats", .arr [.obj [("beat_id", .str "b1"),
        ("premade_messages", .arr [.obj [("message", .str "hi")]])]])]) =
    .ok ⟨true,
      some (.obj [("story", .obj [("systemName", .str "t"), ("displayName", .str "T")]),
        ("characters", .arr []), ("chats", .arr []),
        ("beats", .arr [.obj [("systemName", .str "b1"),
          ("openingMessages", .arr [.obj [("content", .str "hi")]]),
          ("responseSuggestions", .arr []),
          ("sequencePosition", .num 0), ("isActive", .bool true),
          ("displayName", .str "b1")]])]),
      [⟨"beats[0].conversationId", "Beat b1 missing conversationId (chat_id)", none⟩,
       ⟨"beats[0].openingMessages[0].sender", "Message missing sender (sender_id)",
        some (.obj [("content", .str "hi")])⟩],
      []⟩ := rfl

/-! ### Field-rewriter tie-break (claim C5) -/

/-- Spec-modelled tie-break (NOT from the source): "entries are processed
in table-enumeration order; a later alias overrides an earlier one only if
its value is not the absence marker". For a record and a canonical key,
fold over the alias table in its enumeration order, taking each present
alias's value with later-defined-wins. Defined only to be compared with
the source's `transformFields`. -/
def transformFieldsSpecTableOrder (mapping : List (String × String))
    (fl : List (String × JVal)) (t : String) : JVal :=
  mapping.foldl (fun acc p =>
    if p.2 = t ∧ p.1 ∈ keysOf fl ∧ (acc = .undef ∨ getProp fl p.1 ≠ .undef) then
      getProp fl p.1
    else acc) (.undef)

/-- Counterexample to table-order tie-break: on the record
`\x7bsender:"a", sender_id:"b"\x7d` the source code yields `sender = "b"`
(input-record order, `sender_id` written last), while processing aliases
in table-enumeration order (`sender_id` before `sender` in the table)
would yield `"a"`. -/
theorem transformFields_tiebreak_counterexample :
    transformFields PREMADE_MESSAGE_FIELD_MAPPINGS
      (.obj [("sender", .str "a"), ("sender_id", .str "b")]) =
      .obj [("sender", .str "b")] ∧
    transformFieldsSpecTableOrder PREMADE_MESSAGE_FIELD_MAPPINGS
      [("sender", .str "a"), ("sender_id", .str "b")] "sender" = .str "a" :=
  ⟨rfl, rfl⟩

theorem getProp_foldl_transformFieldsStep (mapping : List (String × String))
    (fl : List (String × JVal)) (init : List (String × JVal)) (t : String) :
    getProp (fl.foldl (transformFieldsStep mapping) init) t =
      fl.foldl (fun acc e =>
        if targetKey mapping e.1 = t ∧ (acc = .undef ∨ e.2 ≠ .undef) then e.2
        else acc) (getProp init t) := by
  induction fl generalizing init with
  | nil => rfl
  | cons e rest ih =>
      simp only [List.foldl_cons]
      rw [ih]
      have hstep : getProp (transformFieldsStep mapping init e) t =
          if targetKey mapping e.1 = t ∧ (getProp init t = .undef ∨ e.2 ≠ .undef)
          then e.2 else getProp init t := by
        rw [transformFieldsStep]
        by_cases htk : targetKey mapping e.1 = t
        · rw [htk]
          by_cases hc : getProp init t = .undef ∨ e.2 ≠ .undef
          · rw [if_pos hc, if_pos ⟨rfl, hc⟩, getProp_setProp_self]
          · rw [if_neg hc, if_neg (fun hp => hc hp.2)]
        · by_cases hc : getProp init (targetKey mapping e.1) = .undef ∨ e.2 ≠ .undef
          · rw [if_pos hc, if_neg (fun hp => htk hp.1), getProp_setProp_ne _ _ htk]
          · rw [if_neg hc, if_neg (fun hp => htk hp.1)]
      rw [hstep]

/-- C5 (amended): the tie-break between aliases of the same canonical key
follows the INPUT RECORD's own entry order, not the alias table's
enumeration order: the canonical key's final value is the record-order
fold where each entry targeting that key overrides the accumulated value
exactly when its value is defined or nothing was written yet. -/
theorem transformFields_record_order (mapping : List (String × String))
    (fl : List (String × JVal)) (t : String) :
    jget (transformFields mapping (.obj fl)) t =
      .ok (fl.foldl (fun acc e =>
        if targetKey mapping e.1 = t ∧ (acc = .undef ∨ e.2 ≠ .undef) then e.2
        else acc) .undef) := by
  show Except.ok (getProp (fl.foldl (transformFieldsStep mapping) []) t) = _
  rw [getProp_foldl_transformFieldsStep]
  rfl

/-! ### Collection fallback precedence (claim C7) -/

/-- Counterexample to "select the first candidate key that is PRESENT": a
document with `chats: null` (present, falsy) and a `conversations`
collection uses `conversations` — `input.chats || input.new_chats ||
input.conversations || ...` skips every present-but-falsy candidate, so
presence alone does not stop the fallthrough. -/
theorem validate_chats_present_falsy_counterexample :
    validateLLMStoryOutput (.obj [("story", .obj [("story_id", .str "t")]),
      ("chats", .null),
      ("conversations", .arr [.obj [("chat_id", .str "c1")]])]) =
    .ok ⟨true,
      some (.obj [("story", .obj [("systemName", .str "t"), ("displayName", .str "t")]),
        ("characters", .arr []),
        ("chats", .arr [.obj [("systemName", .str "c1"),
          ("conversationType", .str "dm"), ("participants", .arr []),
          ("displayName", .str "c1")]]),
        ("beats", .arr [])]),
      [⟨"story.displayName", "Story is missing displayName (title)", none⟩],
      []⟩ := rfl

/-- C7 (amended): the resolver takes the first TRUTHY candidate, never
merging with later ones: whenever the root's `chats` value is truthy (an
empty array included — JS arrays are truthy), writing any value whatsoever
under `conversations` leaves the whole validation result unchanged. -/
theorem validate_collection_first_truthy {fl : List (String × JVal)} (v : JVal)
    (h : truthy (getProp fl "chats") = true) :
    validateLLMStoryOutput (.obj (setProp fl "conversations" v)) =
      validateLLMStoryOutput (.obj fl) := by
  show validateObject (.obj (setProp fl "conversations" v)) = validateObject (.obj fl)
  simp only [validateObject, jget_obj, Except.bind, bind]
  rw [getProp_setProp_ne _ _ (show "conversations" ≠ "story" by decide),
    getProp_setProp_ne _ _ (show "conversations" ≠ "story_info" by decide),
    getProp_setProp_ne _ _ (show "conversations" ≠ "characters" by decide),
    getProp_setProp_ne _ _ (show "conversations" ≠ "cast" by decide),
    getProp_setProp_ne _ _ (show "conversations" ≠ "entities" by decide),
    getProp_setProp_ne _ _ (show "conversations" ≠ "chats" by decide),
    getProp_setProp_ne _ _ (show "conversations" ≠ "new_chats" by decide),
    getProp_setProp_ne _ _ (show "conversations" ≠ "rooms" by decide),
    getProp_setProp_ne _ _ (show "conversations" ≠ "beats" by decide),
    getProp_setProp_ne _ _ (show "conversations" ≠ "all_beats" by decide),
    getProp_setProp_self,
    jor_of_truthy _ h, jor_of_truthy _ h]

/-- Witness for C7: with `chats: []` (present and truthy though empty),
adding a `conversations` collection changes nothing. -/
theorem validate_collection_first_truthy_witness :
    validateLLMStoryOutput (.obj (setProp [("chats", .arr [])] "conversations"
        (.arr [.obj [("chat_id", .str "zzz")]]))) =
      validateLLMStoryOutput (.obj [("chats", .arr [])]) :=
  validate_collection_first_truthy (.arr [.obj [("chat_id", .str "zzz")]]) rfl

/-! ### Beat message-source fallback (claim C8) -/

/-- Spec-modelled candidate filter (NOT from the source): a candidate is
"non-empty" when it is present and not an empty sequence. -/
def specNonEmpty : JVal → Bool
  | .undef => false
  | .arr [] => false
  | _ => true

/-- Spec-modelled message-source selection (NOT from the source): "source
messages located via a fixed fallback order of raw field names (first
non-empty candidate wins)". Defined only to be compared with the source's
`transformBeat`. -/
def firstNonEmptySource (fl : List (String × JVal)) : JVal :=
  match ([getProp fl "premade_messages", getProp fl "openingMessages",
          getProp fl "messages", getProp fl "content"].find? specNonEmpty) with
  | some v => v
  | none => .arr []

/-- Counterexample to "first NON-EMPTY candidate wins": a beat with an
EMPTY `premade_messages` array and a non-empty `messages` array keeps the
empty container (` || ` tests truthiness and a JS empty array is truthy),
while the spec's first-non-empty rule would have selected `messages`. -/
theorem transformBeat_empty_container_counterexample :
    transformBeat (.obj [("beat_id", .str "b1"), ("premade_messages", .arr []),
      ("messages", .arr [.obj [("message", .str "hi")]])]) =
      .ok (.obj [("systemName", .str "b1"), ("openingMessages", .arr []),
        ("responseSuggestions", .arr []), ("sequencePosition", .num 0),
        ("isActive", .bool true)]) ∧
    firstNonEmptySource [("beat_id", .str "b1"), ("premade_messages", .arr []),
      ("messages", .arr [.obj [("message", .str "hi")]])] =
      .arr [.obj [("message", .str "hi")]] :=
  ⟨rfl, rfl⟩

/-- The first TRUTHY of the four candidate fields, in the code's fixed
order, defaulting to an empty array (closed form of the source's
`raw.premade_messages || raw.openingMessages || raw.messages ||
raw.content || []`). -/
def firstTruthySource (fl : List (String × JVal)) : JVal :=
  match ([getProp fl "premade_messages", getProp fl "openingMessages",
          getProp fl "messages", getProp fl "content"].find? truthy) with
  | some v => v
  | none => .arr []

theorem jorChain_eq_firstTruthySource (fl : List (String × JVal)) :
    jor (getProp fl "premade_messages") (jor (getProp fl "openingMessages")
      (jor (getProp fl "messages") (jor (getProp fl "content") (.arr [])))) =
    firstTruthySource fl := by
  rw [firstTruthySource]
  by_cases t1 : truthy (getProp fl "premade_messages") <;>
  by_cases t2 : truthy (getProp fl "openingMessages") <;>
  by_cases t3 : truthy (getProp fl "messages") <;>
  by_cases t4 : truthy (getProp fl "content") <;>
  simp [jor, List.find?, t1, t2, t3, t4]

/-- C8 (amended): the beat's message container is the first TRUTHY (not
first non-empty: an empty array is truthy and wins; a present-but-falsy
value is skipped) among `premade_messages`, `openingMessages`, `messages`,
`content` in that fixed order; it is flattened by
`transformPremadeMessages` and each element normalized by
`transformPremadeMessage`, and the result is the normalized beat's
`openingMessages`. -/
theorem transformBeat_openingMessages {fl : List (String × JVal)} {t : JVal}
    {opening : List JVal}
    (hm : mapMessages (transformPremadeMessages (firstTruthySource fl)) =
      .ok opening)
    (h : transformBeat (.obj fl) = .ok t) :
    ∃ l, t = .obj l ∧ lookupProp l "openingMessages" = some (.arr opening) := by
  rw [transformBeat,
    show transformEntity .beat (.obj fl) =
      .obj (fl.foldl (transformFieldsStep BEAT_FIELD_MAPPINGS) []) from rfl] at h
  simp only [jget_obj, Except.bind, bind, pure, Except.pure, jset_obj] at h
  rw [jorChain_eq_firstTruthySource, hm] at h
  simp only [Except.bind, bind, pure, Except.pure, jset_obj, jget_obj] at h
  set S := setProp (setProp (fl.foldl (transformFieldsStep BEAT_FIELD_MAPPINGS) [])
      "openingMessages" (.arr opening)) "responseSuggestions"
      (normalizeResponseSuggestions (jor (getProp fl "response_suggestions")
        (jor (getProp fl "response_suggestion")
          (getProp fl "responseSuggestions")))) with hS
  have hSom : lookupProp S "openingMessages" = some (.arr opening) := by
    rw [hS, lookupProp_setProp_ne _ _ (by decide), lookupProp_setProp_self]
  split at h
  case h_1 q hq =>
    split at h
    case h_1 bb hbb =>
      cases h
      exact ⟨S, rfl, hSom⟩
    case h_2 hnb =>
      cases h
      exact ⟨_, rfl, by rw [lookupProp_setProp_ne _ _ (by decide), hSom]⟩
  case h_2 hnq =>
    split at h
    case h_1 bb hbb =>
      cases h
      exact ⟨_, rfl, by rw [lookupProp_setProp_ne _ _ (by decide), hSom]⟩
    case h_2 hnb =>
      cases h
      exact ⟨_, rfl, by
        rw [lookupProp_setProp_ne _ _ (by decide),
          lookupProp_setProp_ne _ _ (by decide), hSom]⟩

/-- Witness for C8: a beat whose only container is
`premade_messages: [\x7bmessage:"hi"\x7d]` normalizes it into
`openingMessages` with the message's `message` aliased to `content`. -/
theorem transformBeat_openingMessages_witness :
    ∃ l, (JVal.obj [("openingMessages", .arr [.obj [("content", .str "hi")]]),
        ("responseSuggestions", .arr []), ("sequencePosition", .num 0),
        ("isActive", .bool true)]) = .obj l ∧
      lookupProp l "openingMessages" =
        some (.arr [.obj [("content", .str "hi")]]) :=
  @transformBeat_openingMessages
    [("premade_messages", .arr [.obj [("message", .str "hi")]])]
    (.obj [("openingMessages", .arr [.obj [("content", .str "hi")]]),
      ("responseSuggestions", .arr []), ("sequencePosition", .num 0),
      ("isActive", .bool true)])
    [.obj [("content", .str "hi")]] rfl rfl

/-- The empty string is falsy in JavaScript. -/
theorem truthy_empty_str : truthy (JVal.str "") = false := rfl

/-- C10: a present-but-empty-string identifier is treated exactly like an
absent one, because every missing-field check tests truthiness: a story
with `systemName: ""` gets the missing-systemName ERROR; a character,
chat, or beat whose transformed `systemName` is `""` gets the missing-id
WARNING and the synthetic `<kind>_<index>` id; and a message whose
`sender` or `content` is `""` gets the corresponding warnings. -/
theorem validate_empty_string_ids :
    (∀ l r, getProp l "systemName" = .str "" → checkStory (.obj l) = .ok r →
       r.1 = [⟨"story.systemName", "Story is missing systemName (story_id)", none⟩]) ∧
    (∀ c l i res, transformCharacter c = .ok (.obj l) →
       getProp l "systemName" = .str "" → processCharacter c i = .ok res →
       res.1 = [⟨"characters[" ++ toString i ++ "].systemName",
         "Character at index " ++ toString i ++ " missing systemName (id)", none⟩] ∧
       jget res.2 "systemName" = .ok (.str ("character_" ++ toString i))) ∧
    (∀ c l i res, transformChat c = .ok (.obj l) →
       getProp l "systemName" = .str "" → processChat c i = .ok res →
       res.1 = [⟨"chats[" ++ toString i ++ "].systemName",
         "Chat at index " ++ toString i ++ " missing systemName (chat_id)", none⟩] ∧
       jget res.2 "systemName" = .ok (.str ("chat_" ++ toString i))) ∧
    (∀ b l i res, transformBeat b = .ok (.obj l) →
       getProp l "systemName" = .str "" → processBeat b i = .ok res →
       res.1.head? = some ⟨"beats[" ++ toString i ++ "].systemName",
         "Beat at index " ++ toString i ++ " missing systemName (beat_id)", none⟩ ∧
       jget res.2 "systemName" = .ok (.str ("beat_" ++ toString i))) ∧
    (∀ bi j l rest ws, getProp l "sender" = .str "" → getProp l "content" = .str "" →
       checkMessages bi (.obj l :: rest) j = .ok ws →
       ws.take 2 =
         [⟨"beats[" ++ toString bi ++ "].openingMessages[" ++ toString j ++ "].sender",
           "Message missing sender (sender_id)", some (.obj l)⟩,
          ⟨"beats[" ++ toString bi ++ "].openingMessages[" ++ toString j ++ "].content",
           "Message missing content (message)", some (.obj l)⟩]) := by
  refine ⟨?_, ?_, ?_, ?_, ?_⟩
  · intro l r hsn h
    rw [checkStory] at h
    simp only [jget_obj, Except.bind, bind, pure, Except.pure, hsn,
      truthy_empty_str, Bool.false_eq_true, if_false, jset_obj] at h
    split at h
    · cases h; rfl
    · cases h; rfl
  · intro c l i res hT hsn h
    rw [processCharacter, hT] at h
    simp only [jget_obj, Except.bind, bind, pure, Except.pure, hsn,
      truthy_empty_str, Bool.false_eq_true, if_false, jset_obj] at h
    split at h
    · cases h
      exact ⟨rfl, by rw [jget_obj, getProp_setProp_self]⟩
    · cases h
      exact ⟨rfl, by
        rw [jget_obj, getProp_setProp_ne _ _ (by decide), getProp_setProp_self]⟩
  · intro c l i res hT hsn h
    rw [processChat, hT] at h
    simp only [jget_obj, Except.bind, bind, pure, Except.pure, hsn,
      truthy_empty_str, Bool.false_eq_true, if_false, jset_obj] at h
    split at h
    · cases h
      exact ⟨rfl, by rw [jget_obj, getProp_setProp_self]⟩
    · cases h
      exact ⟨rfl, by
        rw [jget_obj, getProp_setProp_ne _ _ (by decide), getProp_setProp_self]⟩
  · intro b l i res hT hsn h
    rw [processBeat, hT] at h
    simp only [jget_obj, Except.bind, bind, pure, Except.pure, hsn,
      truthy_empty_str, Bool.false_eq_true, if_false, jset_obj] at h
    split at h
    · split at h
      · split at h
        · exact Except.noConfusion h
        · cases h
          exact ⟨rfl, by rw [jget_obj, getProp_setProp_self]⟩
      · exact Except.noConfusion h
    · split at h
      · split at h
        · exact Except.noConfusion h
        · cases h
          exact ⟨rfl, by
            rw [jget_obj, getProp_setProp_ne _ _ (by decide), getProp_setProp_self]⟩
      · exact Except.noConfusion h
  · intro bi j l rest ws hs hc h
    rw [checkMessages] at h
    simp only [jget_obj, Except.bind, bind, pure, Except.pure, hs, hc,
      truthy_empty_str, Bool.false_eq_true, if_false] at h
    split at h
    · exact Except.noConfusion h
    · cases h; rfl

/-- Witness for C10: each conjunct applied at an empty-string-id input
(`systemName:""`, `id:""`, `chat_id:""`, `beat_id:""`, and a message with
`sender:""`, `content:""`). -/
theorem validate_empty_string_ids_witness :
    (([⟨"story.systemName", "Story is missing systemName (story_id)", none⟩],
      [⟨"story.displayName", "Story is missing displayName (title)", none⟩],
      JVal.obj [("systemName", .str ""), ("displayName", .str "Untitled")]) :
        List VIssue × List VIssue × JVal).1 =
      [⟨"story.systemName", "Story is missing systemName (story_id)", none⟩] ∧
    ((([⟨"characters[0].systemName", "Character at index 0 missing systemName (id)", none⟩],
      JVal.obj [("systemName", .str "character_0"), ("isUser", .bool false),
        ("displayName", .str "character_0")]) : List VIssue × JVal).1 =
      [⟨"characters[0].systemName", "Character at index 0 missing systemName (id)", none⟩] ∧
     jget (JVal.obj [("systemName", .str "character_0"), ("isUser", .bool false),
        ("displayName", .str "character_0")]) "systemName" = .ok (.str "character_0")) ∧
    ((([⟨"chats[0].systemName", "Chat at index 0 missing systemName (chat_id)", none⟩],
      JVal.obj [("systemName", .str "chat_0"), ("conversationType", .str "dm"),
        ("participants", .arr []), ("displayName", .str "chat_0")]) : List VIssue × JVal).1 =
      [⟨"chats[0].systemName", "Chat at index 0 missing systemName (chat_id)", none⟩] ∧
     jget (JVal.obj [("systemName", .str "chat_0"), ("conversationType", .str "dm"),
        ("participants", .arr []), ("displayName", .str "chat_0")]) "systemName" =
       .ok (.str "chat_0")) ∧
    ((([⟨"beats[0].systemName", "Beat at index 0 missing systemName (beat_id)", none⟩,
       ⟨"beats[0].conversationId", "Beat beat_0 missing conversationId (chat_id)", none⟩],
      JVal.obj [("systemName", .str "beat_0"), ("openingMessages", .arr []),
        ("responseSuggestions", .arr []), ("sequencePosition", .num 0),
        ("isActive", .bool true), ("displayName", .str "beat_0")]) :
          List VIssue × JVal).1.head? =
      some ⟨"beats[0].systemName", "Beat at index 0 missing systemName (beat_id)", none⟩ ∧
     jget (JVal.obj [("systemName", .str "beat_0"), ("openingMessages", .arr []),
        ("responseSuggestions", .arr []), ("sequencePosition", .num 0),
        ("isActive", .bool true), ("displayName", .str "beat_0")]) "systemName" =
       .ok (.str "beat_0")) ∧
    ([⟨"beats[0].openingMessages[0].sender", "Message missing sender (sender_id)",
        some (.obj [("sender", .str ""), ("content", .str "")])⟩,
      ⟨"beats[0].openingMessages[0].content", "Message missing content (message)",
        some (.obj [("sender", .str ""), ("content", .str "")])⟩] :
        List VIssue).take 2 =
      [⟨"beats[0].openingMessages[0].sender", "Message missing sender (sender_id)",
        some (.obj [("sender", .str ""), ("content", .str "")])⟩,
       ⟨"beats[0].openingMessages[0].content", "Message missing content (message)",
        some (.obj [("sender", .str ""), ("content", .str "")])⟩] :=
  ⟨validate_empty_string_ids.1 [("systemName", .str "")] _ rfl rfl,
   validate_empty_string_ids.2.1 (.obj [("id", .str "")])
     [("systemName", .str ""), ("isUser", .bool false)] 0 _ rfl rfl rfl,
   validate_empty_string_ids.2.2.1 (.obj [("chat_id", .str "")])
     [("systemName", .str ""), ("conversationType", .str "dm"), ("participants", .arr [])]
     0 _ rfl rfl rfl,
   validate_empty_string_ids.2.2.2.1 (.obj [("beat_id", .str "")])
     [("systemName", .str ""), ("openingMessages", .arr []),
      ("responseSuggestions", .arr []), ("sequencePosition", .num 0),
      ("isActive", .bool true)] 0 _ rfl rfl rfl,
   validate_empty_string_ids.2.2.2.2 0 0 [("sender", .str ""), ("content", .str "")]
     [] _ rfl rfl rfl⟩

/-! ### Throw-freedom (claim C2) -/

/-- A value JavaScript property WRITES succeed on in this code path. -/
def isObjOrArr : JVal → Bool
  | .obj _ => true
  | .arr _ => true
  | _ => false

/-- A value JavaScript property READS succeed on. -/
def notNullish : JVal → Bool
  | .null => false
  | .undef => false
  | _ => true

theorem jget_eq_joptGet {v : JVal} (h : isObjOrArr v = true) (k : String) :
    jget v k = .ok (joptGet v k) := by
  cases v <;> first | rfl | exact Bool.noConfusion h

theorem jget_ok_of_notNullish {v : JVal} (h : notNullish v = true) (k : String) :
    ∃ x, jget v k = .ok x := by
  cases v <;> first | exact ⟨_, rfl⟩ | exact Bool.noConfusion h

theorem notNullish_of_MsgOut {m : JVal} (h : MsgOut m) : notNullish m = true := by
  rcases h with (⟨b, rfl⟩ | ⟨q, rfl⟩ | ⟨s, rfl⟩) | ⟨l, rfl, _⟩ <;> rfl

theorem transformPremadeMessage_noThrow {m : JVal} (h : notNullish m = true) :
    ∃ t, transformPremadeMessage m = .ok t := by
  cases m with
  | null => exact Bool.noConfusion h
  | undef => exact Bool.noConfusion h
  | bool b => exact ⟨_, rfl⟩
  | num q => exact ⟨_, rfl⟩
  | str s => exact ⟨_, rfl⟩
  | arr es =>
      rw [transformPremadeMessage]
      simp only [show transformEntity .premadeMessage (.arr es) =
        .obj ((jEntries (.arr es)).foldl
          (transformFieldsStep PREMADE_MESSAGE_FIELD_MAPPINGS) []) from rfl,
        jget_obj, Except.bind, bind, pure, Except.pure,
        show jget (JVal.arr es) "language" = .ok (arrIndexGet es "language") from rfl]
      split
      · exact ⟨_, rfl⟩
      · exact ⟨_, rfl⟩
  | obj fl =>
      rw [transformPremadeMessage]
      simp only [show transformEntity .premadeMessage (.obj fl) =
        .obj (fl.foldl (transformFieldsStep PREMADE_MESSAGE_FIELD_MAPPINGS) []) from rfl,
        jget_obj, Except.bind, bind, pure, Except.pure]
      split
      · exact ⟨_, rfl⟩
      · exact ⟨_, rfl⟩

theorem transformPremadeMessage_notNullish {m t : JVal}
    (h : transformPremadeMessage m = .ok t) : notNullish t = true := by
  cases m with
  | null => exact Except.noConfusion h
  | undef => exact Except.noConfusion h
  | bool b => cases h; rfl
  | num q => cases h; rfl
  | str s => cases h; rfl
  | arr es =>
      rw [transformPremadeMessage] at h
      simp only [show transformEntity .premadeMessage (.arr es) =
        .obj ((jEntries (.arr es)).foldl
          (transformFieldsStep PREMADE_MESSAGE_FIELD_MAPPINGS) []) from rfl,
        jget_obj, Except.bind, bind, pure, Except.pure,
        show jget (JVal.arr es) "language" = .ok (arrIndexGet es "language") from rfl,
        jset_obj] at h
      split at h <;> cases h <;> rfl
  | obj fl =>
      rw [transformPremadeMessage] at h
      simp only [show transformEntity .premadeMessage (.obj fl) =
        .obj (fl.foldl (transformFieldsStep PREMADE_MESSAGE_FIELD_MAPPINGS) []) from rfl,
        jget_obj, Except.bind, bind, pure, Except.pure, jset_obj] at h
      split at h <;> cases h <;> rfl

theorem mapMessages_noThrow {ms : List JVal} (h : ∀ m ∈ ms, notNullish m = true) :
    ∃ ts, mapMessages ms = .ok ts := by
  induction ms with
  | nil => exact ⟨[], rfl⟩
  | cons m rest ih =>
      obtain ⟨t, ht⟩ := transformPremadeMessage_noThrow (h m (by simp))
      obtain ⟨ts, hts⟩ := ih (fun x hx => h x (by simp [hx]))
      exact ⟨t :: ts, by
        rw [mapMessages]
        simp only [ht, hts, Except.bind, bind, pure, Except.pure]⟩

theorem transformCharacter_noThrow {c : JVal} (h : isObjOrArr c = true) :
    ∃ l, transformCharacter c = .ok (.obj l) := by
  cases c with
  | obj fl =>
      rw [transformCharacter]
      simp only [show transformEntity .character (.obj fl) =
        .obj (fl.foldl (transformFieldsStep CHARACTER_FIELD_MAPPINGS) []) from rfl,
        jget_obj, Except.bind, bind, pure, Except.pure, jset_obj]
      repeat' split
      all_goals exact ⟨_, rfl⟩
  | arr es =>
      rw [transformCharacter]
      simp only [show transformEntity .character (.arr es) =
        .obj ((jEntries (.arr es)).foldl
          (transformFieldsStep CHARACTER_FIELD_MAPPINGS) []) from rfl,
        jget_obj, Except.bind, bind, pure, Except.pure, jset_obj]
      repeat' split
      all_goals exact ⟨_, rfl⟩
  | undef => exact Bool.noConfusion h
  | null => exact Bool.noConfusion h
  | bool b => exact Bool.noConfusion h
  | num q => exact Bool.noConfusion h
  | str s => exact Bool.noConfusion h

theorem transformChat_noThrow {c : JVal} (h : isObjOrArr c = true) :
    ∃ l, transformChat c = .ok (.obj l) := by
  cases c with
  | obj fl =>
      rw [transformChat]
      simp only [show transformEntity .chat (.obj fl) =
        .obj (fl.foldl (transformFieldsStep CHAT_FIELD_MAPPINGS) []) from rfl,
        jget_obj, Except.bind, bind, pure, Except.pure, jset_obj]
      repeat' split
      all_goals exact ⟨_, rfl⟩
  | arr es =>
      rw [transformChat]
      simp only [show transformEntity .chat (.arr es) =
        .obj ((jEntries (.arr es)).foldl
          (transformFieldsStep CHAT_FIELD_MAPPINGS) []) from rfl,
        jget_obj, Except.bind, bind, pure, Except.pure, jset_obj]
      repeat' split
      all_goals exact ⟨_, rfl⟩
  | undef => exact Bool.noConfusion h
  | null => exact Bool.noConfusion h
  | bool b => exact Bool.noConfusion h
  | num q => exact Bool.noConfusion h
  | str s => exact Bool.noConfusion h

theorem transformStory_noThrow {v : JVal} (h : isObjOrArr v = true) :
    ∃ l, transformStory v = .ok (.obj l) := by
  cases v with
  | obj fl =>
      rw [transformStory]
      simp only [show transformEntity .story (.obj fl) =
        .obj (fl.foldl (transformFieldsStep STORY_FIELD_MAPPINGS) []) from rfl,
        jget_obj, Except.bind, bind, pure, Except.pure, jset_obj]
      repeat' split
      all_goals exact ⟨_, rfl⟩
  | arr es =>
      rw [transformStory]
      simp only [show transformEntity .story (.arr es) =
        .obj ((jEntries (.arr es)).foldl
          (transformFieldsStep STORY_FIELD_MAPPINGS) []) from rfl,
        jget_obj, Except.bind, bind, pure, Except.pure, jset_obj]
      repeat' split
      all_goals exact ⟨_, rfl⟩
  | undef => exact Bool.noConfusion h
  | null => exact Bool.noConfusion h
  | bool b => exact Bool.noConfusion h
  | num q => exact Bool.noConfusion h
  | str s => exact Bool.noConfusion h

/-- The message container a beat resolves (first truthy of the four
candidate fields on the raw beat, optional-chained reads). -/
def rawMsgContainer (b : JVal) : JVal :=
  jor (joptGet b "premade_messages") (jor (joptGet b "openingMessages")
    (jor (joptGet b "messages") (jor (joptGet b "content") (.arr []))))

/-- A beat raw record is well shaped when it is an object or array and
every element of its flattened message container is non-nullish. -/
def beatOK (b : JVal) : Bool :=
  isObjOrArr b &&
    (transformPremadeMessages (rawMsgContainer b)).all notNullish

theorem transformBeat_noThrow {b : JVal} (h : beatOK b = true) :
    ∃ t, transformBeat b = .ok t := by
  obtain ⟨ho, hmsgs⟩ := Bool.and_eq_true_iff.mp h
  obtain ⟨opening, hop⟩ := mapMessages_noThrow
    (fun m hm => List.all_eq_true.mp hmsgs m hm)
  rw [transformBeat]
  simp only [jget_eq_joptGet ho, Except.bind, bind, pure, Except.pure]
  rw [show jor (joptGet b "premade_messages") (jor (joptGet b "openingMessages")
    (jor (joptGet b "messages") (jor (joptGet b "content") (.arr [])))) =
    rawMsgContainer b from rfl, hop]
  cases b with
  | obj fl =>
      simp only [show transformEntity .beat (.obj fl) =
        .obj (fl.foldl (transformFieldsStep BEAT_FIELD_MAPPINGS) []) from rfl,
        jget_obj, Except.bind, bind, pure, Except.pure, jset_obj]
      repeat' split
      all_goals exact ⟨_, rfl⟩
  | arr es =>
      simp only [show transformEntity .beat (.arr es) =
        .obj ((jEntries (.arr es)).foldl
          (transformFieldsStep BEAT_FIELD_MAPPINGS) []) from rfl,
        jget_obj, Except.bind, bind, pure, Except.pure, jset_obj]
      repeat' split
      all_goals exact ⟨_, rfl⟩
  | undef => exact Bool.noConfusion ho
  | null => exact Bool.noConfusion ho
  | bool bb => exact Bool.noConfusion ho
  | num q => exact Bool.noConfusion ho
  | str s => exact Bool.noConfusion ho

theorem checkStory_noThrow (l : List (String × JVal)) :
    ∃ r, checkStory (.obj l) = .ok r := by
  rw [checkStory]
  simp only [jget_obj, Except.bind, bind, pure, Except.pure, jset_obj]
  repeat' split
  all_goals exact ⟨_, rfl⟩

theorem processCharacter_noThrow {c : JVal} (h : isObjOrArr c = true) (i : Nat) :
    ∃ r, processCharacter c i = .ok r := by
  obtain ⟨l, hl⟩ := transformCharacter_noThrow h
  rw [processCharacter, hl]
  simp only [jget_obj, Except.bind, bind, pure, Except.pure, jset_obj]
  repeat' split
  all_goals exact ⟨_, rfl⟩

theorem processCharacters_noThrow {cs : List JVal}
    (h : ∀ c ∈ cs, isObjOrArr c = true) : ∀ i, ∃ r, processCharacters cs i = .ok r := by
  induction cs with
  | nil => exact fun i => ⟨_, rfl⟩
  | cons c rest ih =>
      intro i
      obtain ⟨r, hr⟩ := processCharacter_noThrow (h c (by simp)) i
      obtain ⟨rs, hrs⟩ := ih (fun x hx => h x (by simp [hx])) (i + 1)
      exact ⟨_, by
        rw [processCharacters]
        simp only [hr, hrs, Except.bind, bind, pure, Except.pure]
        rfl⟩

theorem processChat_noThrow {c : JVal} (h : isObjOrArr c = true) (i : Nat) :
    ∃ r, processChat c i = .ok r := by
  obtain ⟨l, hl⟩ := transformChat_noThrow h
  rw [processChat, hl]
  simp only [jget_obj, Except.bind, bind, pure, Except.pure, jset_obj]
  repeat' split
  all_goals exact ⟨_, rfl⟩

theorem processChats_noThrow {cs : List JVal}
    (h : ∀ c ∈ cs, isObjOrArr c = true) : ∀ i, ∃ r, processChats cs i = .ok r := by
  induction cs with
  | nil => exact fun i => ⟨_, rfl⟩
  | cons c rest ih =>
      intro i
      obtain ⟨r, hr⟩ := processChat_noThrow (h c (by simp)) i
      obtain ⟨rs, hrs⟩ := ih (fun x hx => h x (by simp [hx])) (i + 1)
      exact ⟨_, by
        rw [processChats]
        simp only [hr, hrs, Except.bind, bind, pure, Except.pure]
        rfl⟩

theorem checkMessages_noThrow (bi : Nat) {ms : List JVal}
    (h : ∀ m ∈ ms, notNullish m = true) : ∀ j, ∃ ws, checkMessages bi ms j = .ok ws := by
  induction ms with
  | nil => exact fun j => ⟨_, rfl⟩
  | cons m rest ih =>
      intro j
      obtain ⟨s, hs⟩ := jget_ok_of_notNullish (h m (by simp)) "sender"
      obtain ⟨c, hc⟩ := jget_ok_of_notNullish (h m (by simp)) "content"
      obtain ⟨ws, hws⟩ := ih (fun x hx => h x (by simp [hx])) (j + 1)
      exact ⟨_, by
        rw [checkMessages]
        simp only [hs, hc, hws, Except.bind, bind, pure, Except.pure]
        rfl⟩

theorem processBeat_noThrow {b : JVal} (h : beatOK b = true) (i : Nat) :
    ∃ r, processBeat b i = .ok r := by
  obtain ⟨t, ht⟩ := transformBeat_noThrow h
  obtain ⟨l, rfl, hcore⟩ := transformBeat_out ht
  obtain ⟨oms, hom, homs⟩ := hcore.2.1
  have hget : getProp l "openingMessages" = .arr oms := by
    rw [getProp, hom]; rfl
  have hnn : ∀ m ∈ oms, notNullish m = true :=
    fun m hm => notNullish_of_MsgOut (homs m hm)
  obtain ⟨ws, hws⟩ := checkMessages_noThrow i hnn 0
  rw [processBeat, ht]
  simp only [jget_obj, Except.bind, bind, pure, Except.pure, jset_obj]
  split
  · split
    · simp only [jget_obj, Except.bind, bind, pure, Except.pure, hget, hws]
      exact ⟨_, rfl⟩
    · simp only [jget_obj, Except.bind, bind, pure, Except.pure, jset_obj,
        getProp_setProp_ne _ _ (show "displayName" ≠ "openingMessages" by decide),
        hget, hws]
      exact ⟨_, rfl⟩
  · split
    · simp only [jget_obj, Except.bind, bind, pure, Except.pure, jset_obj,
        getProp_setProp_ne _ _ (show "systemName" ≠ "openingMessages" by decide),
        hget, hws]
      exact ⟨_, rfl⟩
    · simp only [jget_obj, Except.bind, bind, pure, Except.pure, jset_obj,
        getProp_setProp_ne _ _ (show "displayName" ≠ "openingMessages" by decide),
        getProp_setProp_ne _ _ (show "systemName" ≠ "openingMessages" by decide),
        hget, hws]
      exact ⟨_, rfl⟩

theorem processBeats_noThrow {bs : List JVal}
    (h : ∀ b ∈ bs, beatOK b = true) : ∀ i, ∃ r, processBeats bs i = .ok r := by
  induction bs with
  | nil => exact fun i => ⟨_, rfl⟩
  | cons b rest ih =>
      intro i
      obtain ⟨r, hr⟩ := processBeat_noThrow (h b (by simp)) i
      obtain ⟨rs, hrs⟩ := ih (fun x hx => h x (by simp [hx])) (i + 1)
      exact ⟨_, by
        rw [processBeats]
        simp only [hr, hrs, Except.bind, bind, pure, Except.pure]
        rfl⟩

/-- Well-shapedness of a parsed object document, the hypothesis under which
the pipeline is throw-free: the resolved story source is an object or
array, the three resolved collections are arrays whose elements are
objects or arrays, and every element of each beat's flattened message
container is non-nullish. -/
def WellShaped (fl : List (String × JVal)) : Bool :=
  isObjOrArr (jor (getProp fl "story") (jor (getProp fl "story_info") (.obj []))) &&
  (match jor (getProp fl "characters") (jor (getProp fl "cast")
      (jor (joptGet (getProp fl "entities") "characters") (.arr []))) with
   | .arr es => es.all isObjOrArr
   | _ => false) &&
  (match jor (getProp fl "chats") (jor (getProp fl "new_chats")
      (jor (getProp fl "conversations") (jor (getProp fl "rooms")
        (jor (joptGet (getProp fl "entities") "chats") (.arr []))))) with
   | .arr es => es.all isObjOrArr
   | _ => false) &&
  (match jor (getProp fl "beats") (jor (getProp fl "all_beats") (.arr [])) with
   | .arr bs => bs.all beatOK
   | _ => false)

/-- C2 (amended): the pipeline is throw-free on well-shaped object
documents — resolved story source an object/array, resolved collections
arrays of objects/arrays, beats' flattened message-container elements
non-nullish. Record-keyed containers are flattened in key insertion order
ONLY for a beat's messages; a record-keyed top-level collection throws
(see the counterexample), so the spec's shape tolerance is narrower than
stated. -/
theorem validateLLMStoryOutput_no_throw {fl : List (String × JVal)}
    (h : WellShaped fl = true) : ∃ r, validateLLMStoryOutput (.obj fl) = .ok r := by
  simp only [WellShaped, Bool.and_eq_true] at h
  obtain ⟨⟨⟨h1, h2⟩, h3⟩, h4⟩ := h
  obtain ⟨ls, hS⟩ := transformStory_noThrow h1
  obtain ⟨rs, hCS⟩ := checkStory_noThrow ls
  obtain ⟨errs, sws, story⟩ := rs
  cases hrc : jor (getProp fl "characters") (jor (getProp fl "cast")
      (jor (joptGet (getProp fl "entities") "characters") (.arr []))) with
  | arr ces =>
      rw [hrc] at h2
      cases hrh : jor (getProp fl "chats") (jor (getProp fl "new_chats")
          (jor (getProp fl "conversations") (jor (getProp fl "rooms")
            (jor (joptGet (getProp fl "entities") "chats") (.arr []))))) with
      | arr hes =>
          rw [hrh] at h3
          cases hrb : jor (getProp fl "beats") (jor (getProp fl "all_beats") (.arr [])) with
          | arr bes =>
              rw [hrb] at h4
              obtain ⟨⟨cw, cs'⟩, hPC⟩ := @processCharacters_noThrow ces
                (fun c hc => List.all_eq_true.mp h2 c hc) 0
              obtain ⟨⟨hw, hs'⟩, hPH⟩ := @processChats_noThrow hes
                (fun c hc => List.all_eq_true.mp h3 c hc) 0
              obtain ⟨⟨bw, bs'⟩, hPB⟩ := @processBeats_noThrow bes
                (fun b hb => List.all_eq_true.mp h4 b hb) 0
              show ∃ r, validateObject (.obj fl) = .ok r
              exact ⟨_, by
                rw [validateObject]
                simp only [jget_obj, Except.bind, bind, pure, Except.pure,
                  hS, hCS, hrc, hrh, hrb, asArrayElems, hPC, hPH, hPB]
                rfl⟩
          | undef => rw [hrb] at h4; exact Bool.noConfusion h4
          | null => rw [hrb] at h4; exact Bool.noConfusion h4
          | bool b => rw [hrb] at h4; exact Bool.noConfusion h4
          | num q => rw [hrb] at h4; exact Bool.noConfusion h4
          | str s => rw [hrb] at h4; exact Bool.noConfusion h4
          | obj o => rw [hrb] at h4; exact Bool.noConfusion h4
      | undef => rw [hrh] at h3; exact Bool.noConfusion h3
      | null => rw [hrh] at h3; exact Bool.noConfusion h3
      | bool b => rw [hrh] at h3; exact Bool.noConfusion h3
      | num q => rw [hrh] at h3; exact Bool.noConfusion h3
      | str s => rw [hrh] at h3; exact Bool.noConfusion h3
      | obj o => rw [hrh] at h3; exact Bool.noConfusion h3
  | undef => rw [hrc] at h2; exact Bool.noConfusion h2
  | null => rw [hrc] at h2; exact Bool.noConfusion h2
  | bool b => rw [hrc] at h2; exact Bool.noConfusion h2
  | num q => rw [hrc] at h2; exact Bool.noConfusion h2
  | str s => rw [hrc] at h2; exact Bool.noConfusion h2
  | obj o => rw [hrc] at h2; exact Bool.noConfusion h2

/-- Counterexample to "never throws when the parsed value is an object":
a record-keyed top-level `characters` collection is cast to an array and
`.map`ped directly, so the run THROWS a `TypeError` instead of flattening
the record or reporting an issue. -/
theorem validate_record_collection_throws_counterexample :
    validateLLMStoryOutput (.obj [("story", .obj [("story_id", .str "t")]),
      ("characters", .obj [("a", .obj [("id", .str "c1")])])]) =
      .error (.typeError "rawCharacters.map is not a function") := rfl

/-- Witness for C2: a well-shaped document (including an id-keyed beat
message container, flattened in `{a,b}` order) validates without
throwing. -/
theorem validateLLMStoryOutput_no_throw_witness :
    WellShaped [("story", .obj [("story_id", .str "t")]),
      ("characters", .arr [.obj [("id", .str "c1")]]),
      ("chats", .arr []),
      ("beats", .arr [.obj [("beat_id", .str "b1"),
        ("premade_messages", .obj [("a", .obj [("message", .str "hi")]),
          ("b", .obj [("message", .str "yo")])])]])] = true ∧
    ∃ r, validateLLMStoryOutput (.obj [("story", .obj [("story_id", .str "t")]),
      ("characters", .arr [.obj [("id", .str "c1")]]),
      ("chats", .arr []),
      ("beats", .arr [.obj [("beat_id", .str "b1"),
        ("premade_messages", .obj [("a", .obj [("message", .str "hi")]),
          ("b", .obj [("message", .str "yo")])])]])]) = .ok r :=
  ⟨rfl, validateLLMStoryOutput_no_throw rfl⟩
